import Mathlib

/-!
# Book Manager (`src/App.jsx`): store operations and derived views

A shallow embedding of the state-management layer of the React application in
`src/App.jsx`: the collection mutators of `BookProvider` (`addBook`,
`updateBook`, `deleteBook`) with `generateId`, the statistics hook
`useBookStats` and the bar of `StatsPage`, the filtered list of `BookList`, the
submit handler of `BookForm`, and the load and save steps of `useLocalStorage`
with models of `JSON.parse` and `JSON.stringify`.

JavaScript strings are modelled by Lean `String`, arrays by `List`, and a
function that may throw by a result in `Except`.
-/

namespace BookManager

/-! ## Data model -/

/-- A book record as stored in the collection: `{ id, title, author, status }`.
All four fields are JavaScript strings; `status` is compared against the
literals `'milik'`, `'baca'`, `'beli'` but is not restricted to them by the code. -/
structure Book where
  id : String
  title : String
  author : String
  status : String
  deriving DecidableEq, Repr

/-- The object `bookData = { title, author, status }` built by the form and
handed to `addBook`. -/
structure BookData where
  title : String
  author : String
  status : String
  deriving DecidableEq, Repr

/-- The value returned by `useBookStats`: `{ total, milik, baca, beli }`. -/
structure BookStats where
  total : Nat
  milik : Nat
  baca : Nat
  beli : Nat
  deriving DecidableEq, Repr

/-! ## Collection store (`BookProvider`) -/

/-- The updater of `addBook`: `newBook = { ...book, id: generateId() }`, then
`prev => [...prev, newBook]`. The freshly generated id is the argument `newId`. -/
def addBook (newId : String) (book : BookData) (prev : List Book) : List Book :=
  let newBook : Book :=
    { id := newId, title := book.title, author := book.author, status := book.status }
  prev ++ [newBook]

/-- The updater of `updateBook`:
`prev.map((book) => (book.id === updatedBook.id ? updatedBook : book))`. -/
def updateBook (updatedBook : Book) (prev : List Book) : List Book :=
  prev.map (fun book => if book.id == updatedBook.id then updatedBook else book)

/-- The updater of `deleteBook`: `prev.filter((book) => book.id !== id)`. -/
def deleteBook (id : String) (prev : List Book) : List Book :=
  prev.filter (fun book => book.id != id)

/-! ## Statistics (`useBookStats`) -/

/-- The body of the memoised callback in `useBookStats`. -/
def useBookStats (books : List Book) : BookStats :=
  let total := books.length
  let milik := (books.filter (fun b => b.status == "milik")).length
  let baca := (books.filter (fun b => b.status == "baca")).length
  let beli := (books.filter (fun b => b.status == "beli")).length
  { total := total, milik := milik, baca := baca, beli := beli }

/-- Number of records of a collection carrying a given status, by direct
recursion over the collection (the reading of "count per status value" used to
state what `useBookStats` must return). -/
def countStatus (s : String) : List Book → Nat
  | [] => 0
  | b :: rest => (if b.status = s then 1 else 0) + countStatus s rest

/-- Every record carries one of the three status values of the form's
`<select>`: `'milik'`, `'baca'` or `'beli'`. -/
def KnownStatuses (books : List Book) : Prop :=
  ∀ b ∈ books, b.status = "milik" ∨ b.status = "baca" ∨ b.status = "beli"

instance (books : List Book) : Decidable (KnownStatuses books) := by
  unfold KnownStatuses
  infer_instance

/-- The collection of the statistics test: two owned, one reading, one wishlist. -/
def statsBooks : List Book :=
  [ { id := "a", title := "Milik 1", author := "A", status := "milik" },
    { id := "b", title := "Milik 2", author := "B", status := "milik" },
    { id := "c", title := "Baca 1", author := "C", status := "baca" },
    { id := "d", title := "Beli 1", author := "D", status := "beli" } ]

/-! ## Filtered list (`BookList.filteredBooks`) -/

/-- The two built-in string methods of the JavaScript runtime that the filtered
list relies on and whose result depends on Unicode data and on the locale:
`String.prototype.toLowerCase` and `String.prototype.localeCompare`. They are
taken as given functions. -/
structure JsRuntime where
  toLowerCase : String → String
  localeCompare : String → String → Int

/-- Search for `t` as a contiguous run inside a character list: `t` is found
when it is a leading segment of the list or occurs in its tail. -/
def includesChars (t : List Char) : List Char → Bool
  | [] => t.isEmpty
  | c :: rest => t.isPrefixOf (c :: rest) || includesChars t rest

/-- `s.includes(t)` of `String.prototype.includes`: `t` occurs as a substring
of `s`. -/
def includes (s t : String) : Bool :=
  includesChars t.data s.data

/-- Insertion of one element into a list sorted by the comparator `cmp`: `a`
goes in front of the first element `b` with `cmp a b ≤ 0`. -/
def sortInsert {α : Type} (cmp : α → α → Int) (a : α) : List α → List α
  | [] => [a]
  | b :: l => if cmp a b ≤ 0 then a :: b :: l else b :: sortInsert cmp a l

/-- `Array.prototype.sort(cmp)`, which ECMAScript requires to be a stable sort
(the array it is called on here is the fresh one returned by `filter`). For a
comparator that is a total preorder the stable sorted arrangement of a list is
unique, so the result does not depend on the algorithm; the executable model
is a stable insertion sort. -/
def arraySort {α : Type} (cmp : α → α → Int) : List α → List α
  | [] => []
  | a :: l => sortInsert cmp a (arraySort cmp l)

/-- The callback passed to `books.filter` in `filteredBooks`:
`statusMatch && searchMatch`. -/
def filterCallback (rt : JsRuntime) (searchTerm filterStatus : String) (book : Book) : Bool :=
  let statusMatch := filterStatus == "all" || book.status == filterStatus
  let searchMatch :=
    includes (rt.toLowerCase book.title) (rt.toLowerCase searchTerm) ||
    includes (rt.toLowerCase book.author) (rt.toLowerCase searchTerm)
  statusMatch && searchMatch

/-- The memoised value `filteredBooks` of `BookList`:
`books.filter(...).sort((a, b) => a.title.localeCompare(b.title))`. -/
def filteredBooks (rt : JsRuntime) (books : List Book) (searchTerm filterStatus : String) :
    List Book :=
  arraySort (fun a b => rt.localeCompare a.title b.title)
    (books.filter (filterCallback rt searchTerm filterStatus))

/-- The status filter as the specification words it: the filter is `'all'` or
the record's status equals the filter. -/
def StatusMatches (filterStatus : String) (b : Book) : Prop :=
  filterStatus = "all" ∨ b.status = filterStatus

/-- Case-insensitive containment as the specification words it: the lower-cased
text has the lower-cased term as a contiguous run of characters. -/
def ContainsIgnoringCase (rt : JsRuntime) (text term : String) : Prop :=
  (rt.toLowerCase term).data <:+: (rt.toLowerCase text).data

/-- The search predicate as the specification words it: the term is empty, or
the title contains it, or the author contains it, ignoring case. -/
def SearchMatches (rt : JsRuntime) (searchTerm : String) (b : Book) : Prop :=
  searchTerm = "" ∨ ContainsIgnoringCase rt b.title searchTerm ∨
    ContainsIgnoringCase rt b.author searchTerm

instance (filterStatus : String) (b : Book) : Decidable (StatusMatches filterStatus b) := by
  unfold StatusMatches
  infer_instance

instance (rt : JsRuntime) (text term : String) : Decidable (ContainsIgnoringCase rt text term) := by
  unfold ContainsIgnoringCase
  infer_instance

instance (rt : JsRuntime) (searchTerm : String) (b : Book) :
    Decidable (SearchMatches rt searchTerm b) := by
  unfold SearchMatches
  infer_instance

/-- The title comparison is a total preorder: the sign of `cmp a b` is opposite
to the sign of `cmp b a`, and `cmp · · ≤ 0` is transitive. -/
structure IsTotalPreorder (cmp : String → String → Int) : Prop where
  flip : ∀ a b, cmp a b < 0 ↔ 0 < cmp b a
  trans : ∀ a b c, cmp a b ≤ 0 → cmp b c ≤ 0 → cmp a c ≤ 0

/-- ASCII lower-casing, a stand-in for `toLowerCase` on examples. -/
def asciiLower (s : String) : String :=
  ⟨s.data.map Char.toLower⟩

/-- Comparison of two strings by length, a stand-in for `localeCompare` on
examples; distinct titles of the same length compare equal under it. -/
def lengthCompare (a b : String) : Int :=
  (a.length : Int) - (b.length : Int)

/-- A concrete runtime on which the definitions can be evaluated. -/
def exampleRuntime : JsRuntime :=
  { toLowerCase := asciiLower, localeCompare := lengthCompare }

/-- The collection of the filter and search test. -/
def initialBooks : List Book :=
  [ { id := "1", title := "The Witcher: Blood of Elves", author := "Andrzej Sapkowski",
      status := "baca" },
    { id := "2", title := "Dune", author := "Frank Herbert", status := "milik" },
    { id := "3", title := "The Lord of The Rings", author := "J.R.R. Tolkien",
      status := "beli" } ]

/-- A collection with two titles that tie under `lengthCompare`. -/
def tieBooks : List Book :=
  [ { id := "1", title := "Walden", author := "Henry David Thoreau", status := "milik" },
    { id := "2", title := "Emma", author := "Jane Austen", status := "beli" },
    { id := "3", title := "Dune", author := "Frank Herbert", status := "milik" } ]

/-! ## Form submission (`BookForm.handleSubmit`) -/

/-- The code points removed by `String.prototype.trim`: the ECMAScript
`WhiteSpace` code points (tab, vertical tab, form feed, the Unicode space
separators, the byte-order mark) and the `LineTerminator` code points. -/
def isWhiteSpace (c : Char) : Bool :=
  let n := c.toNat
  n == 0x09 || n == 0x0A || n == 0x0B || n == 0x0C || n == 0x0D || n == 0x20 ||
  n == 0xA0 || n == 0x1680 || (0x2000 ≤ n && n ≤ 0x200A) || n == 0x2028 ||
  n == 0x2029 || n == 0x202F || n == 0x205F || n == 0x3000 || n == 0xFEFF

/-- Removal of leading, then of trailing, white space on a character list. -/
def trimChars (l : List Char) : List Char :=
  ((l.dropWhile isWhiteSpace).reverse.dropWhile isWhiteSpace).reverse

/-- `s.trim()` of `String.prototype.trim`. -/
def trim (s : String) : String :=
  ⟨trimChars s.data⟩

/-- The state held by `BookForm`: the three inputs and the error message. -/
structure FormState where
  title : String
  author : String
  status : String
  error : String
  deriving DecidableEq, Repr

/-- A call made by the form into the collection store. -/
inductive StoreCall where
  | addBook (book : BookData)
  | updateBook (book : Book)
  deriving DecidableEq, Repr

/-- What one run of `handleSubmit` does: the form state after its `set...`
calls, the call into the store if one was made, and whether `onComplete()` ran. -/
structure SubmitOutcome where
  form : FormState
  storeCall : Option StoreCall
  completed : Bool
  deriving DecidableEq, Repr

/-- The message set by `setError` when validation fails. -/
def validationMessage : String :=
  "Judul dan Penulis tidak boleh kosong."

/-- The handler `handleSubmit` of `BookForm`; `bookToEdit` is the prop of the
same name (`none` for `null`, so `isEditing` is `bookToEdit.isSome`). A string
is falsy exactly when it is empty, so `!title.trim()` is `trim title == ""`. -/
def handleSubmit (bookToEdit : Option Book) (f : FormState) : SubmitOutcome :=
  let f0 : FormState := { f with error := "" }
  if trim f0.title == "" || trim f0.author == "" then
    { form := { f0 with error := validationMessage }, storeCall := none, completed := false }
  else
    let bookData : BookData :=
      { title := trim f0.title, author := trim f0.author, status := f0.status }
    let call : StoreCall :=
      match bookToEdit with
      | some edited =>
        StoreCall.updateBook
          { id := edited.id, title := bookData.title, author := bookData.author,
            status := bookData.status }
      | none => StoreCall.addBook bookData
    { form := { title := "", author := "", status := "milik", error := "" },
      storeCall := some call, completed := true }

/-- The effect on the collection of the call made by a submission, if any;
`newId` is the id that `generateId()` yields inside `addBook`. -/
def runStoreCall (newId : String) : Option StoreCall → List Book → List Book
  | none, books => books
  | some (StoreCall.addBook book), books => addBook newId book books
  | some (StoreCall.updateBook book), books => updateBook book books

/-- The title of the record handed to the store by a call. -/
def StoreCall.title : StoreCall → String
  | StoreCall.addBook book => book.title
  | StoreCall.updateBook book => book.title

/-- The author of the record handed to the store by a call. -/
def StoreCall.author : StoreCall → String
  | StoreCall.addBook book => book.author
  | StoreCall.updateBook book => book.author

/-- A string is empty or consists of white space only. -/
def IsBlank (s : String) : Prop :=
  ∀ c ∈ s.data, isWhiteSpace c = true

/-- A string neither starts nor ends with a white-space character. -/
def IsTrimmed (s : String) : Prop :=
  (∀ c, s.data.head? = some c → isWhiteSpace c = false) ∧
  (∀ c, s.data.getLast? = some c → isWhiteSpace c = false)

instance (s : String) : Decidable (IsBlank s) := by
  unfold IsBlank
  infer_instance

/-- The form of the validation test: nothing typed into title and author. -/
def emptyForm : FormState :=
  { title := "", author := "", status := "milik", error := "" }

/-- A form with surrounding white space around both inputs. -/
def paddedForm : FormState :=
  { title := "  Dune ", author := "\tFrank Herbert\n", status := "baca", error := "" }

/-! ## Loading from `localStorage` (`useLocalStorage.getStoredValue`) -/

/-- A value produced by `JSON.parse`. Numbers are kept as their literal text
(they are not evaluated to doubles) and the members of an object are kept in
source order. -/
inductive JsValue where
  | null
  | bool (b : Bool)
  | number (literal : String)
  | string (s : String)
  | array (items : List JsValue)
  | object (members : List (String × JsValue))
  deriving Repr

/-- JSON white space: space, tab, line feed, carriage return. -/
def isJsonWhiteSpace (c : Char) : Bool :=
  c == ' ' || c == '\t' || c == '\n' || c == '\r'

/-- Drop leading JSON white space. -/
def skipWhiteSpace (cs : List Char) : List Char :=
  cs.dropWhile isJsonWhiteSpace

/-- Value of a hexadecimal digit. -/
def hexDigit (c : Char) : Option Nat :=
  let n := c.toNat
  if 48 ≤ n ∧ n ≤ 57 then some (n - 48)
  else if 97 ≤ n ∧ n ≤ 102 then some (n - 87)
  else if 65 ≤ n ∧ n ≤ 70 then some (n - 55)
  else none

/-- Value of the four hexadecimal digits of a `\uXXXX` escape. -/
def hex4 (a b c d : Char) : Option Nat :=
  match hexDigit a, hexDigit b, hexDigit c, hexDigit d with
  | some w, some x, some y, some z => some (((w * 16 + x) * 16 + y) * 16 + z)
  | _, _, _, _ => none

/-- The character denoted by a one-letter escape `\c` inside a JSON string. -/
def escapeChar (c : Char) : Option Char :=
  if c == '"' then some '"'
  else if c == '\\' then some '\\'
  else if c == '/' then some '/'
  else if c == 'b' then some (Char.ofNat 8)
  else if c == 'f' then some (Char.ofNat 12)
  else if c == 'n' then some '\n'
  else if c == 'r' then some '\r'
  else if c == 't' then some '\t'
  else none

/-- The character for a `\uXXXX` code unit `n` followed by the input `rest`: a
high surrogate directly followed by an escaped low surrogate is combined with
it into one code point (and the second escape is consumed); a surrogate left
alone, which a Lean `String` cannot hold, is replaced by U+FFFD. -/
def unicodeEscape (n : Nat) (rest : List Char) : Char × List Char :=
  if 0xD800 ≤ n ∧ n ≤ 0xDBFF then
    match rest with
    | bs :: u :: a :: b :: c :: d :: rest1 =>
      if bs == '\\' && u == 'u' then
        match hex4 a b c d with
        | some m =>
          if 0xDC00 ≤ m ∧ m ≤ 0xDFFF then
            (Char.ofNat (0x10000 + (n - 0xD800) * 0x400 + (m - 0xDC00)), rest1)
          else (Char.ofNat 0xFFFD, rest)
        | none => (Char.ofNat 0xFFFD, rest)
      else (Char.ofNat 0xFFFD, rest)
    | _ => (Char.ofNat 0xFFFD, rest)
  else if 0xDC00 ≤ n ∧ n ≤ 0xDFFF then (Char.ofNat 0xFFFD, rest)
  else (Char.ofNat n, rest)

/-- The characters of a JSON string after its opening quote, up to and
including the closing quote; `fuel` bounds the number of characters read and
`acc` holds the decoded characters in reverse. Control characters below U+0020
must be escaped. -/
def parseStringChars : Nat → List Char → List Char → Option (String × List Char)
  | 0, _, _ => none
  | _ + 1, [], _ => none
  | fuel + 1, c :: rest, acc =>
    if c == '"' then some (⟨acc.reverse⟩, rest)
    else if c == '\\' then
      match rest with
      | [] => none
      | e :: rest1 =>
        if e == 'u' then
          match rest1 with
          | a :: b :: c2 :: d :: rest2 =>
            match hex4 a b c2 d with
            | some n =>
              parseStringChars fuel (unicodeEscape n rest2).2 ((unicodeEscape n rest2).1 :: acc)
            | none => none
          | _ => none
        else
          match escapeChar e with
          | some x => parseStringChars fuel rest1 (x :: acc)
          | none => none
    else if c.toNat < 0x20 then none
    else parseStringChars fuel rest (c :: acc)

/-- The leading decimal digits of the input, and what follows them. -/
def digits (cs : List Char) : List Char × List Char :=
  (cs.takeWhile Char.isDigit, cs.dropWhile Char.isDigit)

/-- The optional minus sign of a JSON number. -/
def parseSign (cs : List Char) : List Char × List Char :=
  match cs with
  | [] => ([], [])
  | c :: r => if c == '-' then ([c], r) else ([], c :: r)

/-- The integer part of a JSON number: a single `0`, or a non-zero digit
followed by digits. -/
def parseInt (cs : List Char) : Option (List Char × List Char) :=
  match cs with
  | [] => none
  | c :: r =>
    if !c.isDigit then none
    else if c == '0' then some ([c], r)
    else some (c :: (digits r).1, (digits r).2)

/-- The optional fraction of a JSON number: a point followed by at least one
digit. -/
def parseFrac (cs : List Char) : Option (List Char × List Char) :=
  match cs with
  | [] => some ([], [])
  | c :: r =>
    if c == '.' then
      if (digits r).1 = [] then none else some (c :: (digits r).1, (digits r).2)
    else some ([], c :: r)

/-- The optional exponent of a JSON number: `e` or `E`, an optional sign, and
at least one digit. -/
def parseExp (cs : List Char) : Option (List Char × List Char) :=
  match cs with
  | [] => some ([], [])
  | e :: r =>
    if e == 'e' || e == 'E' then
      match r with
      | [] => none
      | s :: r1 =>
        if s == '+' || s == '-' then
          if (digits r1).1 = [] then none else some (e :: s :: (digits r1).1, (digits r1).2)
        else
          if (digits r).1 = [] then none else some (e :: (digits r).1, (digits r).2)
    else some ([], e :: r)

/-- A JSON number at the head of the input: sign, integer part, fraction,
exponent. Returns the literal and the remaining input. -/
def parseNumber (cs : List Char) : Option (List Char × List Char) :=
  match parseInt (parseSign cs).2 with
  | none => none
  | some (intPart, cs1) =>
    match parseFrac cs1 with
    | none => none
    | some (frac, cs2) =>
      match parseExp cs2 with
      | none => none
      | some (exp, cs3) => some ((parseSign cs).1 ++ intPart ++ frac ++ exp, cs3)

mutual
/-- A JSON value at the head of the input, after optional white space. Every
nested call is made with one unit of `fuel` less; `none` is a syntax error. -/
def parseValue : Nat → List Char → Option (JsValue × List Char)
  | 0, _ => none
  | fuel + 1, cs =>
    let cs1 := skipWhiteSpace cs
    if "null".data.isPrefixOf cs1 then some (JsValue.null, cs1.drop 4)
    else if "true".data.isPrefixOf cs1 then some (JsValue.bool true, cs1.drop 4)
    else if "false".data.isPrefixOf cs1 then some (JsValue.bool false, cs1.drop 5)
    else
      match cs1 with
      | [] => none
      | c :: rest =>
        if c == '"' then
          match parseStringChars rest.length rest [] with
          | some (s, r) => some (JsValue.string s, r)
          | none => none
        else if c == '[' then
          match skipWhiteSpace rest with
          | [] => none
          | d :: r =>
            if d == ']' then some (JsValue.array [], r) else parseElements fuel rest []
        else if c == '{' then
          match skipWhiteSpace rest with
          | [] => none
          | d :: r =>
            if d == '}' then some (JsValue.object [], r) else parseMembers fuel rest []
        else
          match parseNumber cs1 with
          | some (lit, r) => some (JsValue.number ⟨lit⟩, r)
          | none => none
/-- The elements of a non-empty array up to the closing bracket; `acc` holds
the elements read so far in reverse. -/
def parseElements : Nat → List Char → List JsValue → Option (JsValue × List Char)
  | 0, _, _ => none
  | fuel + 1, cs, acc =>
    match parseValue fuel cs with
    | none => none
    | some (v, rest) =>
      match skipWhiteSpace rest with
      | [] => none
      | d :: r =>
        if d == ',' then parseElements fuel r (v :: acc)
        else if d == ']' then some (JsValue.array (v :: acc).reverse, r)
        else none
/-- The members of a non-empty object up to the closing brace; `acc` holds the
members read so far in reverse. -/
def parseMembers : Nat → List Char → List (String × JsValue) → Option (JsValue × List Char)
  | 0, _, _ => none
  | fuel + 1, cs, acc =>
    match skipWhiteSpace cs with
    | [] => none
    | q :: rest =>
      if q != '"' then none else
      match parseStringChars rest.length rest [] with
      | none => none
      | some (key, rest1) =>
        match skipWhiteSpace rest1 with
        | [] => none
        | colon :: rest2 =>
          if colon != ':' then none else
          match parseValue fuel rest2 with
          | none => none
          | some (v, rest3) =>
            match skipWhiteSpace rest3 with
            | [] => none
            | d :: r =>
              if d == ',' then parseMembers fuel r ((key, v) :: acc)
              else if d == '}' then some (JsValue.object ((key, v) :: acc).reverse, r)
              else none
end

/-- `JSON.parse(text)`: the value denoted by the text, or the thrown
`SyntaxError`. The text must hold one value, surrounded by optional white
space. Along a chain of nested calls of the three parsing functions the input
gets shorter at least every second call, so `2 * length + 2` units of fuel are
never used up (`parseValue_fuel_adequate`). -/
def JSON.parse (text : String) : Except String JsValue :=
  match parseValue (2 * text.length + 2) text.data with
  | some (v, rest) =>
    if skipWhiteSpace rest = [] then Except.ok v else Except.error "SyntaxError"
  | none => Except.error "SyntaxError"

/-- The part of `window.localStorage` that is read: `getItem(key)` returns
`null` (`none`) or the stored text, or throws (for instance when access to the
storage is denied). -/
structure Storage where
  getItem : String → Except String (Option String)

/-- The body of the `try` block of `getStoredValue`:
`item ? JSON.parse(item) : initialValue`, where a string is truthy exactly
when it is non-empty. -/
def getStoredValueTry (localStorage : Storage) (key : String) (initialValue : JsValue) :
    Except String JsValue :=
  match localStorage.getItem key with
  | Except.error e => Except.error e
  | Except.ok none => Except.ok initialValue
  | Except.ok (some item) =>
    if item ≠ "" then JSON.parse item else Except.ok initialValue

/-- The function `getStoredValue` of `useLocalStorage`; the result is
`Except.ok v` when it returns `v` and `Except.error e` when it throws `e`. The
`catch` block logs and returns `initialValue`. -/
def getStoredValue (localStorage : Storage) (key : String) (initialValue : JsValue) :
    Except String JsValue :=
  match getStoredValueTry localStorage key initialValue with
  | Except.ok v => Except.ok v
  | Except.error _ => Except.ok initialValue

/-- A JSON object with string members `id`, `title`, `author` and `status`. -/
def IsBookRecord : JsValue → Prop
  | JsValue.object members =>
    ∀ k ∈ ["id", "title", "author", "status"],
      ∃ s : String, members.lookup k = some (JsValue.string s)
  | _ => False

/-- The expected structured format of the stored text: a JSON array of book
records. -/
def IsBookArray : JsValue → Prop
  | JsValue.array items => ∀ v ∈ items, IsBookRecord v
  | _ => False

/-- A storage holding the single entry `key ↦ text`. -/
def storageWith (key text : String) : Storage :=
  { getItem := fun k => if k == key then Except.ok (some text) else Except.ok none }

/-! ## Statistics screen (`StatsPage`) -/

/-- One coloured segment of the bar "Distribusi Status Buku". Its width
`(dividend / divisor) * 100` and its label `Math.round((dividend / divisor) * 100)`
are floating-point values; a segment records the two operands of that division
instead of the quotient. -/
structure Segment where
  title : String
  backgroundColor : String
  dividend : Nat
  divisor : Nat
  deriving DecidableEq, Repr

/-- The block `{stats.total > 0 && ( ... )}` of `StatsPage`: `none` when the
block is not rendered, otherwise the segments of the bar in document order.
Each `{stats.x > 0 && (<div .../>)}` contributes one segment or nothing. -/
def distribution (stats : BookStats) : Option (List Segment) :=
  if stats.total > 0 then
    some
      ((if stats.milik > 0 then
          [{ title := "Milik: " ++ toString stats.milik, backgroundColor := "#5c5",
             dividend := stats.milik, divisor := stats.total }]
        else []) ++
       (if stats.baca > 0 then
          [{ title := "Dibaca: " ++ toString stats.baca, backgroundColor := "#fa5",
             dividend := stats.baca, divisor := stats.total }]
        else []) ++
       (if stats.beli > 0 then
          [{ title := "Ingin Beli: " ++ toString stats.beli, backgroundColor := "#69f",
             dividend := stats.beli, divisor := stats.total }]
        else []))
  else none

/-- All segments that `StatsPage` renders for `stats` (none when the bar is
not rendered at all). -/
def renderedSegments (stats : BookStats) : List Segment :=
  (distribution stats).getD []

/-! ## Id generation (`generateId`) -/

/-- The digit of value `d < 36` in `Number.prototype.toString(36)`:
`0`–`9`, then `a`–`z`. -/
def digit36 (d : Nat) : Char :=
  if d < 10 then Char.ofNat (48 + d) else Char.ofNat (87 + d)

/-- The base-36 digits of `n` in front of `acc`; `fuel` bounds the number of
digits and `n + 1` is always enough. -/
def toBase36Digits : Nat → Nat → List Char → List Char
  | 0, _, acc => acc
  | fuel + 1, n, acc =>
    if n < 36 then digit36 n :: acc
    else toBase36Digits fuel (n / 36) (digit36 (n % 36) :: acc)

/-- `n.toString(36)` for a non-negative integer `n`. -/
def toBase36 (n : Nat) : String :=
  ⟨toBase36Digits (n + 1) n []⟩

/-- The function `generateId`:
`Date.now().toString(36) + Math.random().toString(36).substring(2)`. `now` is
the value of `Date.now()` and `randomText` the text `Math.random().toString(36)`
(the conversion of a double, taken as given). -/
def generateId (now : Nat) (randomText : String) : String :=
  toBase36 now ++ ⟨randomText.data.drop 2⟩

/-- The ids of a collection, in order. -/
def ids (books : List Book) : List String :=
  books.map (fun b => b.id)

/-- The value of a base-36 digit, the inverse of `digit36`. -/
def value36 (c : Char) : Nat :=
  if c.toNat < 58 then c.toNat - 48 else c.toNat - 87

/-- The number denoted by a list of base-36 digits, most significant first. -/
def fromBase36 (cs : List Char) : Nat :=
  cs.foldl (fun a c => a * 36 + value36 c) 0

/-- The clock values whose base-36 text has eight digits: every value of
`Date.now()` from the middle of 1972 to the middle of 2059. -/
def EightDigitClock (t : Nat) : Prop :=
  36 ^ 7 ≤ t ∧ t < 36 ^ 8

instance (t : Nat) : Decidable (EightDigitClock t) := by
  unfold EightDigitClock
  infer_instance

/-- The collection after one `addBook` on the empty collection, at clock value
`1730000000000` with the random draw `0.5`, which `toString(36)` prints as
`0.i`. -/
def collidingBooks : List Book :=
  addBook (generateId 1730000000000 "0.i")
    { title := "Dune", author := "Frank Herbert", status := "milik" } []

/-- The collection after two calls of `addBook` on the empty collection: at
clock value `1730000000000` with the draw `0.5` (printed `0.i`), then five
milliseconds later with the draw `0.25` (printed `0.9`). -/
def sessionBooks : List Book :=
  addBook (generateId 1730000000005 "0.9")
    { title := "Emma", author := "Jane Austen", status := "beli" }
    (addBook (generateId 1730000000000 "0.i")
      { title := "Dune", author := "Frank Herbert", status := "milik" } [])

/-- The clock value at which each record of `sessionBooks` got its id. -/
def sessionClock (b : Book) : Nat :=
  if b.title == "Dune" then 1730000000000 else 1730000000005

/-- The random text from which each record of `sessionBooks` got its id. -/
def sessionDraw (b : Book) : String :=
  if b.title == "Dune" then "0.i" else "0.9"

/-! ## Saving to `localStorage` (`JSON.stringify`, `setItem`) -/

/-- The lower-case hexadecimal digit of value `d < 16`. -/
def hexChar (d : Nat) : Char :=
  if d < 10 then Char.ofNat (48 + d) else Char.ofNat (87 + d)

/-- The text that `JSON.stringify` writes for one character of a string
(`QuoteJSONString`): the quote and the backslash are escaped, the control
characters below U+0020 are written `\b`, `\f`, `\n`, `\r`, `\t` or `\u00xx`,
every other character is written as it is. -/
def quoteChar (c : Char) : List Char :=
  if c == '"' then ['\\', '"']
  else if c == '\\' then ['\\', '\\']
  else if c.toNat == 8 then ['\\', 'b']
  else if c.toNat == 12 then ['\\', 'f']
  else if c == '\n' then ['\\', 'n']
  else if c == '\r' then ['\\', 'r']
  else if c == '\t' then ['\\', 't']
  else if c.toNat < 0x20 then
    ['\\', 'u', '0', '0', hexChar (c.toNat / 16), hexChar (c.toNat % 16)]
  else [c]

/-- The characters of a string between the two quotes written by
`JSON.stringify`. -/
def quoteChars (s : List Char) : List Char :=
  s.flatMap quoteChar

/-- A string as `JSON.stringify` writes it, with its two quotes. -/
def quote (s : String) : List Char :=
  '"' :: (quoteChars s.data ++ ['"'])

mutual
/-- The text of a value as `JSON.stringify(value)` writes it (no indentation):
members of an object in order, a number by its literal. -/
def stringifyValue : JsValue → List Char
  | JsValue.null => "null".data
  | JsValue.bool b => if b then "true".data else "false".data
  | JsValue.number literal => literal.data
  | JsValue.string s => quote s
  | JsValue.array items => '[' :: (stringifyElements items ++ [']'])
  | JsValue.object members => '{' :: (stringifyMembers members ++ ['}'])
/-- The elements of an array, separated by commas. -/
def stringifyElements : List JsValue → List Char
  | [] => []
  | v :: rest =>
    stringifyValue v ++
      (match rest with
       | [] => []
       | _ :: _ => ',' :: stringifyElements rest)
/-- The members of an object, `"key":value` separated by commas. -/
def stringifyMembers : List (String × JsValue) → List Char
  | [] => []
  | (k, v) :: rest =>
    quote k ++ ':' :: stringifyValue v ++
      (match rest with
       | [] => []
       | _ :: _ => ',' :: stringifyMembers rest)
end

/-- `JSON.stringify(value)`. -/
def JSON.stringify (value : JsValue) : String :=
  ⟨stringifyValue value⟩

/-- The storage after a successful `setItem(key, text)`. -/
def Storage.setItem (localStorage : Storage) (key text : String) : Storage :=
  { getItem := fun k => if k == key then Except.ok (some text) else localStorage.getItem k }

/-- The effect of `useLocalStorage` on the storage when `value` changes:
`window.localStorage.setItem(key, JSON.stringify(value))`, for a write that
the storage accepts. -/
def saveValue (localStorage : Storage) (key : String) (value : JsValue) : Storage :=
  localStorage.setItem key (JSON.stringify value)

/-- The JavaScript object of a book record, with its properties in the order
in which `addBook` creates them: `{ ...book, id }` for
`book = { title, author, status }`. -/
def Book.toJs (b : Book) : JsValue :=
  JsValue.object
    [("title", JsValue.string b.title), ("author", JsValue.string b.author),
     ("status", JsValue.string b.status), ("id", JsValue.string b.id)]

/-- The JavaScript array of a collection. -/
def booksToJs (books : List Book) : JsValue :=
  JsValue.array (books.map Book.toJs)

/-- The object whose members are the given string-valued properties. -/
def recordToJs (members : List (String × String)) : JsValue :=
  JsValue.object (members.map (fun m => (m.1, JsValue.string m.2)))

/-- Property access `value[key]` when the property holds a string; among members
with the same key the last one counts, as in `JSON.parse`. -/
def JsValue.getString (value : JsValue) (key : String) : Option String :=
  match value with
  | JsValue.object members =>
    match members.reverse.lookup key with
    | some (JsValue.string s) => some s
    | _ => none
  | _ => none

/-- The book record read off a JavaScript object through `book.id`,
`book.title`, `book.author` and `book.status`. -/
def toBook (value : JsValue) : Option Book :=
  match value.getString "id", value.getString "title", value.getString "author",
    value.getString "status" with
  | some id, some title, some author, some status =>
    some { id := id, title := title, author := author, status := status }
  | _, _, _, _ => none

/-- The collection read off a JavaScript array of book objects. -/
def toBooks (value : JsValue) : Option (List Book) :=
  match value with
  | JsValue.array items => items.mapM toBook
  | _ => none

/-- The text that the filter test stores before rendering,
`JSON.stringify(initialBooks)`, with the properties of each record in the
order of the test: `id`, `title`, `author`, `status`. -/
def testStoredText : String :=
  JSON.stringify (JsValue.array (initialBooks.map (fun b =>
    recordToJs [("id", b.id), ("title", b.title), ("author", b.author),
      ("status", b.status)])))

/-! ## Theorems: collection store -/

/-- C3: `addBook` yields a collection one record longer, whose first
`prev.length` records are exactly `prev` in order, and whose last record has
the given title, author and status together with the generated id. -/
theorem addBook_appends (newId : String) (book : BookData) (prev : List Book) :
    (addBook newId book prev).length = prev.length + 1 ∧
    (addBook newId book prev).take prev.length = prev ∧
    (addBook newId book prev).getLast? =
      some { id := newId, title := book.title, author := book.author,
             status := book.status } := by
  refine ⟨?_, ?_, ?_⟩
  · simp [addBook]
  · simp [addBook]
  · simp [addBook]

/-- Replacing by `updatedBook` leaves a record alone when no id matches. -/
theorem updateBook_of_absent (updatedBook : Book) (prev : List Book)
    (h : ∀ b ∈ prev, b.id ≠ updatedBook.id) : updateBook updatedBook prev = prev := by
  unfold updateBook
  induction prev with
  | nil => rfl
  | cons a l ih =>
    have ha : a.id ≠ updatedBook.id := h a (List.mem_cons_self _ _)
    have hl : ∀ b ∈ l, b.id ≠ updatedBook.id := fun b hb => h b (List.mem_cons_of_mem _ hb)
    rw [List.map_cons, ih hl]
    simp [ha]

/-- Length of the filter kept by `deleteBook` plus the number of removed records. -/
theorem deleteBook_length_add (id : String) (prev : List Book) :
    (deleteBook id prev).length + prev.countP (fun b => b.id == id) = prev.length := by
  unfold deleteBook
  induction prev with
  | nil => rfl
  | cons a l ih =>
    by_cases ha : a.id = id
    · simp [ha, List.countP_cons]
      omega
    · simp [ha, List.countP_cons]
      omega

/-- With pairwise-distinct ids, at most one record carries a given id. -/
theorem countP_id_le_one (id : String) (prev : List Book)
    (hnd : (prev.map (fun b => b.id)).Nodup) :
    prev.countP (fun b => b.id == id) ≤ 1 := by
  induction prev with
  | nil => simp
  | cons a l ih =>
    rw [List.map_cons, List.nodup_cons] at hnd
    have ihl := ih hnd.2
    by_cases ha : a.id = id
    · have hz : l.countP (fun b => b.id == id) = 0 := by
        rw [List.countP_eq_zero]
        intro b hb hbid
        apply hnd.1
        have : b.id = a.id := by simpa [ha] using hbid
        rw [← this]
        exact List.mem_map_of_mem _ hb
      simp [List.countP_cons, ha, hz]
    · simp [List.countP_cons, ha]
      simpa using ihl

/-- C4: for a record `b` at position `i` and `b'` with `b'.id = b.id`,
`updateBook b'` keeps the size, puts `b'` at position `i`, and leaves every
record whose id differs from `b'.id` unchanged at its original position. -/
theorem updateBook_replaces_in_place (prev : List Book) (b b' : Book) (i : Nat)
    (hb : prev[i]? = some b) (hid : b'.id = b.id) :
    (updateBook b' prev).length = prev.length ∧
    (updateBook b' prev)[i]? = some b' ∧
    ∀ (j : Nat) (c : Book), prev[j]? = some c → c.id ≠ b'.id →
      (updateBook b' prev)[j]? = some c := by
  refine ⟨by simp [updateBook], ?_, ?_⟩
  · simp [updateBook, List.getElem?_map, hb, hid]
  · intro j c hc hne
    simp [updateBook, List.getElem?_map, hc, hne]

/-- Witness for C4: editing the second of two records. -/
theorem updateBook_replaces_in_place_witness :
    (updateBook ⟨"2", "Dune Messiah", "Frank Herbert", "baca"⟩
        [⟨"1", "Emma", "Jane Austen", "beli"⟩, ⟨"2", "Dune", "Frank Herbert", "milik"⟩]).length
      = 2 ∧
    (updateBook ⟨"2", "Dune Messiah", "Frank Herbert", "baca"⟩
        [⟨"1", "Emma", "Jane Austen", "beli"⟩, ⟨"2", "Dune", "Frank Herbert", "milik"⟩])[1]?
      = some ⟨"2", "Dune Messiah", "Frank Herbert", "baca"⟩ ∧
    ∀ (j : Nat) (c : Book),
      [(⟨"1", "Emma", "Jane Austen", "beli"⟩ : Book),
        ⟨"2", "Dune", "Frank Herbert", "milik"⟩][j]? = some c →
      c.id ≠ "2" →
      (updateBook ⟨"2", "Dune Messiah", "Frank Herbert", "baca"⟩
        [⟨"1", "Emma", "Jane Austen", "beli"⟩, ⟨"2", "Dune", "Frank Herbert", "milik"⟩])[j]?
        = some c :=
  updateBook_replaces_in_place
    [⟨"1", "Emma", "Jane Austen", "beli"⟩, ⟨"2", "Dune", "Frank Herbert", "milik"⟩]
    ⟨"2", "Dune", "Frank Herbert", "milik"⟩ ⟨"2", "Dune Messiah", "Frank Herbert", "baca"⟩ 1
    (by decide) (by decide)

/-- C5 as stated fails: when two records carry the id, `deleteBook` removes
both, so the size drops by 2 although the id is present. -/
theorem deleteBook_size_counterexample :
    (∃ b ∈ [(⟨"1", "Dune", "Frank Herbert", "milik"⟩ : Book),
              ⟨"1", "Emma", "Jane Austen", "beli"⟩], b.id = "1") ∧
    (deleteBook "1" [⟨"1", "Dune", "Frank Herbert", "milik"⟩,
        ⟨"1", "Emma", "Jane Austen", "beli"⟩]).length + 1 ≠
      [(⟨"1", "Dune", "Frank Herbert", "milik"⟩ : Book),
        ⟨"1", "Emma", "Jane Austen", "beli"⟩].length := by
  decide

/-- C5 (amended): for an id present in the collection, `deleteBook id` lowers
the size by the number of records carrying that id, which is at least 1 and is
exactly 1 when the ids of the collection are pairwise distinct; no record with
that id remains; every other record is kept, with its multiplicity, and the
result is a sublist of the collection (same relative order). -/
theorem deleteBook_present (id : String) (prev : List Book)
    (h : ∃ b ∈ prev, b.id = id) :
    (deleteBook id prev).length + prev.countP (fun b => b.id == id) = prev.length ∧
    1 ≤ prev.countP (fun b => b.id == id) ∧
    ((prev.map (fun b => b.id)).Nodup → (deleteBook id prev).length + 1 = prev.length) ∧
    (∀ b ∈ deleteBook id prev, b.id ≠ id) ∧
    (deleteBook id prev).Sublist prev ∧
    (∀ b : Book, b.id ≠ id → (deleteBook id prev).count b = prev.count b) := by
  have hlen := deleteBook_length_add id prev
  have hpos : 1 ≤ prev.countP (fun b => b.id == id) := by
    obtain ⟨b, hb, hbid⟩ := h
    exact List.countP_pos_iff.mpr ⟨b, hb, by simp [hbid]⟩
  refine ⟨hlen, hpos, ?_, ?_, ?_, ?_⟩
  · intro hnd
    have := countP_id_le_one id prev hnd
    omega
  · intro b hb
    have := (List.mem_filter.mp hb).2
    simpa using this
  · exact List.filter_sublist prev
  · intro b hne
    unfold deleteBook
    rw [List.count_filter]
    simp [hne]

/-- Witness for C5 (amended): deleting the first of two records. -/
theorem deleteBook_present_witness :
    (deleteBook "1" [⟨"1", "Dune", "Frank Herbert", "milik"⟩,
        ⟨"2", "Emma", "Jane Austen", "beli"⟩]).length +
      [(⟨"1", "Dune", "Frank Herbert", "milik"⟩ : Book),
        ⟨"2", "Emma", "Jane Austen", "beli"⟩].countP (fun b => b.id == "1") = 2 ∧
    (deleteBook "1" [⟨"1", "Dune", "Frank Herbert", "milik"⟩,
        ⟨"2", "Emma", "Jane Austen", "beli"⟩]).Sublist
      [⟨"1", "Dune", "Frank Herbert", "milik"⟩, ⟨"2", "Emma", "Jane Austen", "beli"⟩] :=
  have h := deleteBook_present "1"
    [⟨"1", "Dune", "Frank Herbert", "milik"⟩, ⟨"2", "Emma", "Jane Austen", "beli"⟩]
    ⟨⟨"1", "Dune", "Frank Herbert", "milik"⟩, by decide, by decide⟩
  ⟨h.1, h.2.2.2.2.1⟩

/-- C6: for an id carried by no record, `deleteBook id` returns the collection
itself, and so does `updateBook book` for every `book` with that id; both are
total functions, so no error is signalled. -/
theorem unknown_id_is_noop (id : String) (prev : List Book)
    (h : ∀ b ∈ prev, b.id ≠ id) :
    deleteBook id prev = prev ∧
    ∀ book : Book, book.id = id → updateBook book prev = prev := by
  constructor
  · unfold deleteBook
    rw [List.filter_eq_self]
    intro b hb
    simpa using h b hb
  · intro book hbook
    exact updateBook_of_absent book prev (fun b hb => by rw [hbook]; exact h b hb)

/-- Witness for C6: id `"9"` in a collection holding ids `"1"` and `"2"`. -/
theorem unknown_id_is_noop_witness :
    deleteBook "9" [⟨"1", "Dune", "Frank Herbert", "milik"⟩,
        ⟨"2", "Emma", "Jane Austen", "beli"⟩] =
      [⟨"1", "Dune", "Frank Herbert", "milik"⟩, ⟨"2", "Emma", "Jane Austen", "beli"⟩] ∧
    ∀ book : Book, book.id = "9" →
      updateBook book [⟨"1", "Dune", "Frank Herbert", "milik"⟩,
        ⟨"2", "Emma", "Jane Austen", "beli"⟩] =
      [⟨"1", "Dune", "Frank Herbert", "milik"⟩, ⟨"2", "Emma", "Jane Austen", "beli"⟩] :=
  unknown_id_is_noop "9"
    [⟨"1", "Dune", "Frank Herbert", "milik"⟩, ⟨"2", "Emma", "Jane Austen", "beli"⟩]
    (by decide)

/-! ## Theorems: statistics -/

/-- The length of a status filter is the recursive count of that status. -/
theorem filter_status_length (s : String) (books : List Book) :
    (books.filter (fun b => b.status == s)).length = countStatus s books := by
  induction books with
  | nil => rfl
  | cons a l ih =>
    by_cases ha : a.status = s
    · simp [countStatus, ha, ih]
      omega
    · simp [countStatus, ha, ih]

/-- When all statuses are known, the three counts add up to the length. -/
theorem countStatus_sum (books : List Book) (h : KnownStatuses books) :
    countStatus "milik" books + countStatus "baca" books + countStatus "beli" books
      = books.length := by
  induction books with
  | nil => rfl
  | cons a l ih =>
    have hl : KnownStatuses l := fun b hb => h b (List.mem_cons_of_mem _ hb)
    have ihl := ih hl
    rcases h a (List.mem_cons_self _ _) with ha | ha | ha
    · simp [countStatus, ha]
      omega
    · simp [countStatus, ha]
      omega
    · simp [countStatus, ha]
      omega

/-- C7 as stated fails: a record whose status is none of the three literals is
counted in `total` but in none of `milik`, `baca`, `beli`. -/
theorem useBookStats_sum_counterexample :
    (useBookStats [⟨"1", "Dune", "Frank Herbert", "dipinjam"⟩]).milik +
      (useBookStats [⟨"1", "Dune", "Frank Herbert", "dipinjam"⟩]).baca +
      (useBookStats [⟨"1", "Dune", "Frank Herbert", "dipinjam"⟩]).beli ≠
    (useBookStats [⟨"1", "Dune", "Frank Herbert", "dipinjam"⟩]).total := by
  decide

/-- C7 (amended): for every collection whose records all carry one of the
statuses `'milik'`, `'baca'`, `'beli'`, `milik + baca + beli = total`; and for
the empty collection `total` and the three counts are all 0. -/
theorem useBookStats_sum (books : List Book) (h : KnownStatuses books) :
    (useBookStats books).milik + (useBookStats books).baca + (useBookStats books).beli
      = (useBookStats books).total ∧
    useBookStats [] = { total := 0, milik := 0, baca := 0, beli := 0 } := by
  refine ⟨?_, rfl⟩
  simp only [useBookStats, filter_status_length]
  exact countStatus_sum books h

/-- Witness for C7 (amended): the collection of the statistics test. -/
theorem useBookStats_sum_witness :
    (useBookStats statsBooks).milik + (useBookStats statsBooks).baca +
        (useBookStats statsBooks).beli = (useBookStats statsBooks).total ∧
    useBookStats [] = { total := 0, milik := 0, baca := 0, beli := 0 } :=
  useBookStats_sum statsBooks (by decide)

/-- C8: `useBookStats` returns the number of records as `total` and the number
of records with status `'milik'`, `'baca'`, `'beli'` as `milik`, `baca`, `beli`;
on two owned, one reading and one wishlist record it returns 4, 2, 1, 1. -/
theorem useBookStats_counts (books : List Book) :
    (useBookStats books).total = books.length ∧
    (useBookStats books).milik = countStatus "milik" books ∧
    (useBookStats books).baca = countStatus "baca" books ∧
    (useBookStats books).beli = countStatus "beli" books ∧
    useBookStats statsBooks = { total := 4, milik := 2, baca := 1, beli := 1 } := by
  refine ⟨rfl, ?_, ?_, ?_, by decide⟩
  · exact filter_status_length "milik" books
  · exact filter_status_length "baca" books
  · exact filter_status_length "beli" books

/-! ## Theorems: filtered list -/

/-- `includesChars` decides the infix relation on character lists. -/
theorem includesChars_iff (t s : List Char) : includesChars t s = true ↔ t <:+: s := by
  induction s with
  | nil => simp [includesChars, List.infix_nil, List.isEmpty_iff]
  | cons c rest ih =>
    simp only [includesChars, Bool.or_eq_true, ih, List.infix_cons_iff,
      List.isPrefixOf_iff_prefix]

/-- The search term is always found when its lower-cased form is empty. -/
theorem includes_empty (s t : String) (ht : t = "") : includes s t = true := by
  subst ht
  unfold includes
  rw [includesChars_iff]
  exact List.nil_infix

/-- The filter callback is true exactly on the records that satisfy the status
filter and the search predicate. -/
theorem filterCallback_iff (rt : JsRuntime) (hlow : rt.toLowerCase "" = "")
    (searchTerm filterStatus : String) (b : Book) :
    filterCallback rt searchTerm filterStatus b = true ↔
      StatusMatches filterStatus b ∧ SearchMatches rt searchTerm b := by
  simp only [filterCallback, StatusMatches, SearchMatches, ContainsIgnoringCase, includes,
    Bool.and_eq_true, Bool.or_eq_true, includesChars_iff, beq_iff_eq]
  constructor
  · rintro ⟨hs, hm⟩
    refine ⟨?_, Or.inr hm⟩
    rcases hs with hs | hs
    · exact Or.inl hs
    · exact Or.inr hs
  · rintro ⟨hs, hm⟩
    refine ⟨hs, ?_⟩
    rcases hm with hm | hm
    · subst hm
      rw [hlow]
      exact Or.inl List.nil_infix
    · exact hm

/-- Inserting into a list gives a permutation of the list with the element in front. -/
theorem sortInsert_perm {α : Type} (cmp : α → α → Int) (a : α) (l : List α) :
    (sortInsert cmp a l).Perm (a :: l) := by
  induction l with
  | nil => exact List.Perm.refl _
  | cons b l ih =>
    unfold sortInsert
    split
    · exact List.Perm.refl _
    · exact ((List.Perm.cons b ih).trans (List.Perm.swap a b l))

/-- The sort returns a permutation of its input. -/
theorem arraySort_perm {α : Type} (cmp : α → α → Int) (l : List α) :
    (arraySort cmp l).Perm l := by
  induction l with
  | nil => exact List.Perm.refl _
  | cons a l ih =>
    unfold arraySort
    exact (sortInsert_perm cmp a _).trans (List.Perm.cons a ih)

/-- Inserting into a sorted list keeps it sorted, for a total and transitive comparator. -/
theorem sortInsert_sorted {α : Type} (cmp : α → α → Int)
    (htotal : ∀ a b, cmp a b ≤ 0 ∨ cmp b a ≤ 0)
    (htrans : ∀ a b c, cmp a b ≤ 0 → cmp b c ≤ 0 → cmp a c ≤ 0)
    (a : α) (l : List α) (hl : l.Pairwise (fun x y => cmp x y ≤ 0)) :
    (sortInsert cmp a l).Pairwise (fun x y => cmp x y ≤ 0) := by
  induction l with
  | nil => simp [sortInsert]
  | cons b l ih =>
    rw [List.pairwise_cons] at hl
    unfold sortInsert
    split
    · rename_i hab
      rw [List.pairwise_cons]
      refine ⟨?_, List.pairwise_cons.mpr hl⟩
      intro x hx
      rcases List.mem_cons.mp hx with hx | hx
      · rw [hx]; exact hab
      · exact htrans a b x hab (hl.1 x hx)
    · rename_i hab
      have hba : cmp b a ≤ 0 := by
        rcases htotal a b with h | h
        · exact absurd h hab
        · exact h
      rw [List.pairwise_cons]
      refine ⟨?_, ih hl.2⟩
      intro x hx
      have hx2 := (sortInsert_perm cmp a l).mem_iff.mp hx
      rcases List.mem_cons.mp hx2 with hx2 | hx2
      · rw [hx2]; exact hba
      · exact hl.1 x hx2

/-- The sort returns a sorted list, for a total and transitive comparator. -/
theorem arraySort_sorted {α : Type} (cmp : α → α → Int)
    (htotal : ∀ a b, cmp a b ≤ 0 ∨ cmp b a ≤ 0)
    (htrans : ∀ a b c, cmp a b ≤ 0 → cmp b c ≤ 0 → cmp a c ≤ 0) (l : List α) :
    (arraySort cmp l).Pairwise (fun x y => cmp x y ≤ 0) := by
  induction l with
  | nil => simp [arraySort]
  | cons a l ih =>
    unfold arraySort
    exact sortInsert_sorted cmp htotal htrans a _ ih

/-- Within a class `E` of mutually equal elements, insertion puts the new
element in front of the class members already present. -/
theorem filter_sortInsert {α : Type} (cmp : α → α → Int) (E : α → Bool)
    (hE : ∀ a b, E a = true → E b = true → cmp a b ≤ 0) (a : α) (l : List α) :
    (sortInsert cmp a l).filter E = (a :: l).filter E := by
  induction l with
  | nil => rfl
  | cons b l ih =>
    unfold sortInsert
    split
    · rfl
    · rename_i hab
      rw [List.filter_cons, ih]
      by_cases ha : E a = true
      · have hb : E b = false := by
          by_contra hb
          exact hab (hE a b ha (by simpa using hb))
        simp [List.filter_cons, ha, hb]
      · simp [List.filter_cons, ha]

/-- The sort leaves the order inside a class of mutually equal elements as it was. -/
theorem filter_arraySort {α : Type} (cmp : α → α → Int) (E : α → Bool)
    (hE : ∀ a b, E a = true → E b = true → cmp a b ≤ 0) (l : List α) :
    (arraySort cmp l).filter E = l.filter E := by
  induction l with
  | nil => rfl
  | cons a l ih =>
    unfold arraySort
    rw [filter_sortInsert cmp E hE, List.filter_cons, List.filter_cons, ih]

/-- Consequences of the total-preorder laws: reflexivity, totality, symmetry of ties. -/
theorem IsTotalPreorder.facts {cmp : String → String → Int} (h : IsTotalPreorder cmp) :
    (∀ a, cmp a a = 0) ∧ (∀ a b, cmp a b ≤ 0 ∨ cmp b a ≤ 0) ∧
    (∀ a b, cmp a b = 0 → cmp b a = 0) := by
  refine ⟨?_, ?_, ?_⟩
  · intro a
    have := h.flip a a
    omega
  · intro a b
    have := h.flip b a
    omega
  · intro a b hab
    have h1 := h.flip a b
    have h2 := h.flip b a
    omega

/-- The length comparison is a total preorder. -/
theorem lengthCompare_isTotalPreorder : IsTotalPreorder lengthCompare := by
  constructor
  · intro a b
    unfold lengthCompare
    omega
  · intro a b c
    unfold lengthCompare
    omega

/-- C1: every record of the filtered list satisfies the status filter and the
search predicate, and the filtered list is a permutation of the records of
`books` that satisfy both (each matching record appears as often as in `books`).
The only fact used about `toLowerCase` is that it maps the empty string to
itself. -/
theorem filteredBooks_matching (rt : JsRuntime) (hlow : rt.toLowerCase "" = "")
    (books : List Book) (searchTerm filterStatus : String) :
    (∀ b ∈ filteredBooks rt books searchTerm filterStatus,
      StatusMatches filterStatus b ∧ SearchMatches rt searchTerm b) ∧
    (filteredBooks rt books searchTerm filterStatus).Perm
      (books.filter (fun b =>
        decide (StatusMatches filterStatus b ∧ SearchMatches rt searchTerm b))) := by
  have hfilter : books.filter (filterCallback rt searchTerm filterStatus) =
      books.filter (fun b =>
        decide (StatusMatches filterStatus b ∧ SearchMatches rt searchTerm b)) := by
    apply List.filter_congr
    intro b _
    rw [Bool.eq_iff_iff, filterCallback_iff rt hlow]
    simp
  have hperm : (filteredBooks rt books searchTerm filterStatus).Perm
      (books.filter (filterCallback rt searchTerm filterStatus)) :=
    arraySort_perm _ _
  refine ⟨?_, hfilter ▸ hperm⟩
  intro b hb
  have hmem := hperm.mem_iff.mp hb
  exact (filterCallback_iff rt hlow searchTerm filterStatus b).mp (List.mem_filter.mp hmem).2

/-- Witness for C1: the search for "Tolkien" over the collection of the test. -/
theorem filteredBooks_matching_witness :
    (∀ b ∈ filteredBooks exampleRuntime initialBooks "Tolkien" "all",
      StatusMatches "all" b ∧ SearchMatches exampleRuntime "Tolkien" b) ∧
    (filteredBooks exampleRuntime initialBooks "Tolkien" "all").Perm
      (initialBooks.filter (fun b =>
        decide (StatusMatches "all" b ∧ SearchMatches exampleRuntime "Tolkien" b))) :=
  filteredBooks_matching exampleRuntime (by decide) initialBooks "Tolkien" "all"

/-- Scenario 3 and 4 of the test file: the status filter `'baca'` keeps only
"The Witcher", and the search for "Tolkien" keeps only "The Lord of The Rings". -/
theorem filteredBooks_scenarios :
    filteredBooks exampleRuntime initialBooks "" "baca" =
      [⟨"1", "The Witcher: Blood of Elves", "Andrzej Sapkowski", "baca"⟩] ∧
    filteredBooks exampleRuntime initialBooks "Tolkien" "all" =
      [⟨"3", "The Lord of The Rings", "J.R.R. Tolkien", "beli"⟩] := by
  decide

/-- C2: when `localeCompare` is a total preorder, the filtered list is sorted by
title in ascending order, and the sort is stable: two surviving records with
equal titles that occur in the collection in the order `a`, `b` occur in the
output in that order; more generally, for every title `t` the records whose
title ties with `t` form the same list in the output as among the survivors. -/
theorem filteredBooks_sorted_stable (rt : JsRuntime)
    (hcmp : IsTotalPreorder rt.localeCompare)
    (books : List Book) (searchTerm filterStatus : String) :
    (filteredBooks rt books searchTerm filterStatus).Pairwise
      (fun a b => rt.localeCompare a.title b.title ≤ 0) ∧
    (∀ a b : Book, List.Sublist [a, b] books →
      filterCallback rt searchTerm filterStatus a = true →
      filterCallback rt searchTerm filterStatus b = true →
      rt.localeCompare a.title b.title = 0 →
      List.Sublist [a, b] (filteredBooks rt books searchTerm filterStatus)) ∧
    (∀ t : String,
      (filteredBooks rt books searchTerm filterStatus).filter
          (fun b => rt.localeCompare b.title t == 0) =
        (books.filter (filterCallback rt searchTerm filterStatus)).filter
          (fun b => rt.localeCompare b.title t == 0)) := by
  obtain ⟨hrefl, htotal, hsymm⟩ := hcmp.facts
  have hclass : ∀ t : String,
      (filteredBooks rt books searchTerm filterStatus).filter
          (fun b => rt.localeCompare b.title t == 0) =
        (books.filter (filterCallback rt searchTerm filterStatus)).filter
          (fun b => rt.localeCompare b.title t == 0) := by
    intro t
    unfold filteredBooks
    apply filter_arraySort
    intro a b ha hb
    have ha0 : rt.localeCompare a.title t = 0 := by simpa using ha
    have hb0 : rt.localeCompare b.title t = 0 := by simpa using hb
    have hb1 := hsymm _ _ hb0
    exact hcmp.trans _ _ _ (le_of_eq ha0) (le_of_eq hb1)
  refine ⟨?_, ?_, hclass⟩
  · unfold filteredBooks
    exact arraySort_sorted (fun a b : Book => rt.localeCompare a.title b.title)
      (fun a b => htotal a.title b.title)
      (fun a b c => hcmp.trans a.title b.title c.title) _
  · intro a b hab ha hb htie
    have h1 := (hab.filter (filterCallback rt searchTerm filterStatus)).filter
      (fun c => rt.localeCompare c.title b.title == 0)
    rw [← hclass b.title] at h1
    have h2 : ([a, b].filter (filterCallback rt searchTerm filterStatus)).filter
        (fun c => rt.localeCompare c.title b.title == 0) = [a, b] := by
      simp [List.filter_cons, ha, hb, htie, hrefl]
    rw [h2] at h1
    exact h1.trans (List.filter_sublist _)

/-- Witness for C2: under the length comparison "Emma" and "Dune" tie; the
output is sorted, keeps "Emma" in front of "Dune" as in the collection, and
puts the longer "Walden" last. -/
theorem filteredBooks_sorted_stable_witness :
    (filteredBooks exampleRuntime tieBooks "" "all").Pairwise
      (fun a b => exampleRuntime.localeCompare a.title b.title ≤ 0) ∧
    List.Sublist
      [⟨"2", "Emma", "Jane Austen", "beli"⟩, ⟨"3", "Dune", "Frank Herbert", "milik"⟩]
      (filteredBooks exampleRuntime tieBooks "" "all") ∧
    filteredBooks exampleRuntime tieBooks "" "all" =
      [⟨"2", "Emma", "Jane Austen", "beli"⟩, ⟨"3", "Dune", "Frank Herbert", "milik"⟩,
        ⟨"1", "Walden", "Henry David Thoreau", "milik"⟩] :=
  ⟨(filteredBooks_sorted_stable exampleRuntime lengthCompare_isTotalPreorder
      tieBooks "" "all").1,
    (filteredBooks_sorted_stable exampleRuntime lengthCompare_isTotalPreorder
      tieBooks "" "all").2.1 ⟨"2", "Emma", "Jane Austen", "beli"⟩
      ⟨"3", "Dune", "Frank Herbert", "milik"⟩ (by decide) (by decide) (by decide) (by decide),
    by decide⟩

/-! ## Theorems: form submission -/

/-- Trimming a character list leaves nothing exactly when every character is
white space. -/
theorem trimChars_eq_nil_iff (l : List Char) :
    trimChars l = [] ↔ ∀ c ∈ l, isWhiteSpace c = true := by
  unfold trimChars
  rw [List.reverse_eq_nil_iff, List.dropWhile_eq_nil_iff]
  constructor
  · intro h
    have hnil : l.dropWhile isWhiteSpace = [] := by
      by_contra hne
      have hhead := List.head_dropWhile_not isWhiteSpace l hne
      have hmem : (l.dropWhile isWhiteSpace).head hne ∈ (l.dropWhile isWhiteSpace).reverse :=
        List.mem_reverse.mpr (List.head_mem hne)
      rw [h _ hmem] at hhead
      exact Bool.noConfusion hhead
    exact List.dropWhile_eq_nil_iff.mp hnil
  · intro h x hx
    exact h x (List.dropWhile_subset isWhiteSpace (List.mem_reverse.mp hx))

/-- `trim` returns the empty string exactly on blank strings. -/
theorem trim_eq_empty_iff (s : String) : trim s = "" ↔ IsBlank s := by
  unfold trim IsBlank
  rw [← trimChars_eq_nil_iff]
  constructor
  · intro h
    exact congrArg String.data h
  · intro h
    rw [h]

/-- The result of `trim` neither starts nor ends with white space. -/
theorem trim_isTrimmed (s : String) : IsTrimmed (trim s) := by
  have hdef : (trim s).data =
      List.rdropWhile isWhiteSpace (s.data.dropWhile isWhiteSpace) := rfl
  constructor
  · intro c hc
    rw [hdef] at hc
    have hne : List.rdropWhile isWhiteSpace (s.data.dropWhile isWhiteSpace) ≠ [] := by
      intro h
      rw [h] at hc
      exact Option.noConfusion hc
    have hne2 : s.data.dropWhile isWhiteSpace ≠ [] := by
      intro h
      apply hne
      rw [h]
      exact List.rdropWhile_nil _
    have hhead := List.IsPrefix.head (List.rdropWhile_prefix isWhiteSpace _) hne
    have hnot := List.head_dropWhile_not isWhiteSpace s.data hne2
    rw [List.head?_eq_head hne] at hc
    have hc2 : (List.rdropWhile isWhiteSpace (s.data.dropWhile isWhiteSpace)).head hne = c :=
      Option.some.inj hc
    rw [← hc2, hhead]
    exact hnot
  · intro c hc
    rw [hdef] at hc
    have hne : List.rdropWhile isWhiteSpace (s.data.dropWhile isWhiteSpace) ≠ [] := by
      intro h
      rw [h] at hc
      exact Option.noConfusion hc
    have hlast := List.rdropWhile_last_not isWhiteSpace _ hne
    rw [List.getLast?_eq_getLast _ hne] at hc
    have hc2 := Option.some.inj hc
    rw [← hc2]
    simpa using hlast

/-- C9: when the title or the author is blank (empty or white space only),
`handleSubmit` sets the validation message and makes no call into the store,
so the collection is returned unchanged; when neither is blank, it calls the
store with a record whose title and author are the trimmed inputs, both
non-empty and without leading or trailing white space. -/
theorem handleSubmit_validates (bookToEdit : Option Book) (f : FormState) :
    ((IsBlank f.title ∨ IsBlank f.author) →
      (handleSubmit bookToEdit f).form.error = validationMessage ∧
      (handleSubmit bookToEdit f).storeCall = none ∧
      ∀ (newId : String) (books : List Book),
        runStoreCall newId (handleSubmit bookToEdit f).storeCall books = books) ∧
    (¬ IsBlank f.title → ¬ IsBlank f.author →
      ∃ call : StoreCall, (handleSubmit bookToEdit f).storeCall = some call ∧
        call.title = trim f.title ∧ call.author = trim f.author ∧
        call.title ≠ "" ∧ call.author ≠ "" ∧
        IsTrimmed call.title ∧ IsTrimmed call.author) := by
  constructor
  · intro hblank
    have hcond : (trim f.title == "" || trim f.author == "") = true := by
      rw [Bool.or_eq_true, beq_iff_eq, beq_iff_eq, trim_eq_empty_iff, trim_eq_empty_iff]
      exact hblank
    have hout : handleSubmit bookToEdit f =
        { form := { title := f.title, author := f.author, status := f.status,
                    error := validationMessage },
          storeCall := none, completed := false } := by
      simp only [handleSubmit, hcond, if_true]
    rw [hout]
    exact ⟨rfl, rfl, fun _ _ => rfl⟩
  · intro ht ha
    have ht2 : trim f.title ≠ "" := fun h => ht ((trim_eq_empty_iff _).mp h)
    have ha2 : trim f.author ≠ "" := fun h => ha ((trim_eq_empty_iff _).mp h)
    have hcond : (trim f.title == "" || trim f.author == "") = false := by
      simp [ht2, ha2]
    cases bookToEdit with
    | none =>
      refine ⟨StoreCall.addBook
        { title := trim f.title, author := trim f.author, status := f.status }, ?_, rfl, rfl,
        ht2, ha2, trim_isTrimmed _, trim_isTrimmed _⟩
      simp [handleSubmit, hcond]
    | some edited =>
      refine ⟨StoreCall.updateBook
        { id := edited.id, title := trim f.title, author := trim f.author,
          status := f.status }, ?_, rfl, rfl, ht2, ha2, trim_isTrimmed _, trim_isTrimmed _⟩
      simp [handleSubmit, hcond]

/-- Witness for C9: the empty form of the validation test is rejected, and a
form with padded inputs reaches the store with trimmed fields. -/
theorem handleSubmit_validates_witness :
    ((handleSubmit none emptyForm).form.error = validationMessage ∧
      (handleSubmit none emptyForm).storeCall = none ∧
      ∀ (newId : String) (books : List Book),
        runStoreCall newId (handleSubmit none emptyForm).storeCall books = books) ∧
    (∃ call : StoreCall, (handleSubmit none paddedForm).storeCall = some call ∧
        call.title = trim paddedForm.title ∧ call.author = trim paddedForm.author ∧
        call.title ≠ "" ∧ call.author ≠ "" ∧
        IsTrimmed call.title ∧ IsTrimmed call.author) ∧
    (handleSubmit none paddedForm).storeCall =
      some (StoreCall.addBook { title := "Dune", author := "Frank Herbert", status := "baca" }) :=
  ⟨(handleSubmit_validates none emptyForm).1 (Or.inl (by decide)),
    (handleSubmit_validates none paddedForm).2 (by decide) (by decide), by decide⟩

/-! ## Theorems: loading from `localStorage` -/

/-- Skipping white space never lengthens the input. -/
theorem skipWhiteSpace_length_le (cs : List Char) : (skipWhiteSpace cs).length ≤ cs.length := by
  unfold skipWhiteSpace
  exact (List.dropWhile_sublist _).length_le

/-- What follows the leading digits is no longer than the input. -/
theorem digits_length_le (cs : List Char) : (digits cs).2.length ≤ cs.length := by
  unfold digits
  exact (List.dropWhile_sublist _).length_le

/-- Decoding a code-unit escape never lengthens the remaining input. -/
theorem unicodeEscape_length_le (n : Nat) (rest : List Char) :
    (unicodeEscape n rest).2.length ≤ rest.length := by
  unfold unicodeEscape
  repeat' split
  all_goals first | (simp; done) | (simp; omega)

/-- A successfully read string consumes at least its closing quote. -/
theorem parseStringChars_length_lt : ∀ (f : Nat) (cs acc : List Char) (s : String)
    (r : List Char), parseStringChars f cs acc = some (s, r) → r.length < cs.length := by
  intro f
  induction f with
  | zero => intro cs acc s r h; simp [parseStringChars] at h
  | succ f ih =>
    intro cs acc s r h
    cases cs with
    | nil => simp [parseStringChars] at h
    | cons c rest =>
      unfold parseStringChars at h
      split at h
      · simp at h; simp [← h.2]
      · split at h
        · split at h
          · simp at h
          · split at h
            · split at h
              · split at h
                · have := ih _ _ _ _ h
                  have := unicodeEscape_length_le ‹_› ‹_›
                  simp at *
                  omega
                · simp at h
              · simp at h
            · split at h
              · have := ih _ _ _ _ h
                simp at *
                omega
              · simp at h
        · split at h
          · simp at h
          · have := ih _ _ _ _ h
            simp
            omega

/-- Reading the optional sign never lengthens the input. -/
theorem parseSign_length_le (cs : List Char) : (parseSign cs).2.length ≤ cs.length := by
  unfold parseSign
  repeat' split
  all_goals simp

/-- A successfully read integer part consumes at least one digit. -/
theorem parseInt_length_lt (cs lit r : List Char) (h : parseInt cs = some (lit, r)) :
    r.length < cs.length := by
  unfold parseInt at h
  repeat' split at h
  all_goals simp at h
  all_goals obtain ⟨-, rfl⟩ := h
  all_goals first
    | (simp; done)
    | exact Nat.lt_of_le_of_lt (digits_length_le _) (by simp; try omega)

/-- Reading the optional fraction never lengthens the input. -/
theorem parseFrac_length_le (cs lit r : List Char) (h : parseFrac cs = some (lit, r)) :
    r.length ≤ cs.length := by
  unfold parseFrac at h
  repeat' split at h
  all_goals simp at h
  all_goals obtain ⟨-, rfl⟩ := h
  all_goals first
    | (simp; done)
    | exact (digits_length_le _).trans (by simp; try omega)

/-- Reading the optional exponent never lengthens the input. -/
theorem parseExp_length_le (cs lit r : List Char) (h : parseExp cs = some (lit, r)) :
    r.length ≤ cs.length := by
  unfold parseExp at h
  repeat' split at h
  all_goals simp at h
  all_goals obtain ⟨-, rfl⟩ := h
  all_goals first
    | (simp; done)
    | exact (digits_length_le _).trans (by simp; try omega)

/-- A successfully read number consumes at least one character. -/
theorem parseNumber_length_lt (cs lit r : List Char) (h : parseNumber cs = some (lit, r)) :
    r.length < cs.length := by
  unfold parseNumber at h
  split at h
  · simp at h
  · rename_i intPart cs1 hint
    split at h
    · simp at h
    · rename_i frac cs2 hfrac
      split at h
      · simp at h
      · rename_i exp cs3 hexp
        simp at h
        obtain ⟨-, rfl⟩ := h
        have h1 := parseSign_length_le cs
        have h2 := parseInt_length_lt _ _ _ hint
        have h3 := parseFrac_length_le _ _ _ hfrac
        have h4 := parseExp_length_le _ _ _ hexp
        omega

/-- Dropping a non-empty leading keyword shortens the input. -/
theorem drop_of_isPrefixOf (p cs : List Char) (h : p.isPrefixOf cs = true) (hp : 0 < p.length) :
    (cs.drop p.length).length < cs.length := by
  have := (List.isPrefixOf_iff_prefix.mp h).length_le
  simp
  omega

/-- Every successful call of the three parsing functions consumes at least
one character. -/
theorem parse_length_lt : ∀ f : Nat,
    (∀ cs v r, parseValue f cs = some (v, r) → r.length < cs.length) ∧
    (∀ cs acc v r, parseElements f cs acc = some (v, r) → r.length < cs.length) ∧
    (∀ cs acc v r, parseMembers f cs acc = some (v, r) → r.length < cs.length) := by
  intro f
  induction f with
  | zero =>
    refine ⟨?_, ?_, ?_⟩
    · intro cs v r h; simp [parseValue] at h
    · intro cs acc v r h; simp [parseElements] at h
    · intro cs acc v r h; simp [parseMembers] at h
  | succ f ih =>
    obtain ⟨ihv, ihe, ihm⟩ := ih
    refine ⟨?_, ?_, ?_⟩
    · intro cs v r h
      have hskip := skipWhiteSpace_length_le cs
      rw [parseValue] at h
      simp only at h
      split at h
      · rename_i hp
        have := drop_of_isPrefixOf _ _ hp (by decide)
        simp at h
        obtain ⟨-, rfl⟩ := h
        exact Nat.lt_of_lt_of_le this hskip
      · split at h
        · rename_i hp
          have := drop_of_isPrefixOf _ _ hp (by decide)
          simp at h
          obtain ⟨-, rfl⟩ := h
          exact Nat.lt_of_lt_of_le this hskip
        · split at h
          · rename_i hp
            have := drop_of_isPrefixOf _ _ hp (by decide)
            simp at h
            obtain ⟨-, rfl⟩ := h
            exact Nat.lt_of_lt_of_le this hskip
          · split at h
            · simp at h
            · rename_i c rest hcs
              rw [hcs] at hskip
              simp at hskip
              split at h
              · split at h
                · rename_i s r1 hs
                  have := parseStringChars_length_lt _ _ _ _ _ hs
                  simp at h
                  obtain ⟨-, rfl⟩ := h
                  omega
                · simp at h
              · split at h
                · split at h
                  · simp at h
                  · rename_i d r1 hd
                    have hsk2 := skipWhiteSpace_length_le rest
                    rw [hd] at hsk2
                    simp at hsk2
                    split at h
                    · simp at h
                      obtain ⟨-, rfl⟩ := h
                      omega
                    · have := ihe _ _ _ _ h
                      omega
                · split at h
                  · split at h
                    · simp at h
                    · rename_i d r1 hd
                      have hsk2 := skipWhiteSpace_length_le rest
                      rw [hd] at hsk2
                      simp at hsk2
                      split at h
                      · simp at h
                        obtain ⟨-, rfl⟩ := h
                        omega
                      · have := ihm _ _ _ _ h
                        omega
                  · split at h
                    · rename_i lit r1 hn
                      have := parseNumber_length_lt _ _ _ hn
                      rw [hcs] at this
                      simp at h this
                      obtain ⟨-, rfl⟩ := h
                      omega
                    · simp at h
    · intro cs acc v r h
      rw [parseElements] at h
      split at h
      · simp at h
      · rename_i v1 rest hv
        have h1 := ihv _ _ _ hv
        have hsk := skipWhiteSpace_length_le rest
        split at h
        · simp at h
        · rename_i d r1 hd
          rw [hd] at hsk
          simp at hsk
          split at h
          · have := ihe _ _ _ _ h
            omega
          · split at h
            · simp at h
              obtain ⟨-, rfl⟩ := h
              omega
            · simp at h
    · intro cs acc v r h
      rw [parseMembers] at h
      have hsk0 := skipWhiteSpace_length_le cs
      split at h
      · simp at h
      · rename_i q rest hq
        rw [hq] at hsk0
        simp at hsk0
        split at h
        · simp at h
        · split at h
          · simp at h
          · rename_i key rest1 hkey
            have h1 := parseStringChars_length_lt _ _ _ _ _ hkey
            have hsk1 := skipWhiteSpace_length_le rest1
            split at h
            · simp at h
            · rename_i colon rest2 hcolon
              rw [hcolon] at hsk1
              simp at hsk1
              split at h
              · simp at h
              · split at h
                · simp at h
                · rename_i v1 rest3 hv
                  have h3 := ihv _ _ _ hv
                  have hsk3 := skipWhiteSpace_length_le rest3
                  split at h
                  · simp at h
                  · rename_i d r1 hd
                    rw [hd] at hsk3
                    simp at hsk3
                    split at h
                    · have := ihm _ _ _ _ h
                      omega
                    · split at h
                      · simp at h
                        obtain ⟨-, rfl⟩ := h
                        omega
                      · simp at h

/-- Above twice the input length (plus one for a value, plus two for elements
and members) the result of the parsing functions does not depend on the fuel. -/
theorem parse_fuel_irrelevant : ∀ f g : Nat,
    (∀ cs, 2 * cs.length + 1 ≤ f → 2 * cs.length + 1 ≤ g →
      parseValue f cs = parseValue g cs) ∧
    (∀ cs acc, 2 * cs.length + 2 ≤ f → 2 * cs.length + 2 ≤ g →
      parseElements f cs acc = parseElements g cs acc) ∧
    (∀ cs acc, 2 * cs.length + 2 ≤ f → 2 * cs.length + 2 ≤ g →
      parseMembers f cs acc = parseMembers g cs acc) := by
  intro f
  induction f with
  | zero =>
    intro g
    refine ⟨?_, ?_, ?_⟩
    · intro cs hf; omega
    · intro cs acc hf; omega
    · intro cs acc hf; omega
  | succ f ih =>
    intro g
    cases g with
    | zero =>
      refine ⟨?_, ?_, ?_⟩
      · intro cs _ hg; omega
      · intro cs acc _ hg; omega
      · intro cs acc _ hg; omega
    | succ g =>
      obtain ⟨ihv, ihe, ihm⟩ := ih g
      refine ⟨?_, ?_, ?_⟩
      · intro cs hf hg
        have hskip := skipWhiteSpace_length_le cs
        rw [parseValue, parseValue]
        simp only []
        by_cases h1 : "null".data.isPrefixOf (skipWhiteSpace cs) = true
        · simp only [if_pos h1]
        simp only [if_neg h1]
        by_cases h2 : "true".data.isPrefixOf (skipWhiteSpace cs) = true
        · simp only [if_pos h2]
        simp only [if_neg h2]
        by_cases h3 : "false".data.isPrefixOf (skipWhiteSpace cs) = true
        · simp only [if_pos h3]
        simp only [if_neg h3]
        cases hcs : skipWhiteSpace cs with
        | nil => rfl
        | cons c rest =>
          rw [hcs] at hskip
          simp only [List.length_cons] at hskip
          simp only []
          by_cases h4 : (c == '"') = true
          · simp only [if_pos h4]
          simp only [if_neg h4]
          by_cases h5 : (c == '[') = true
          · simp only [if_pos h5]
            cases hr : skipWhiteSpace rest with
            | nil => rfl
            | cons d r =>
              simp only []
              rw [ihe rest [] (by omega) (by omega)]
          simp only [if_neg h5]
          by_cases h6 : (c == '{') = true
          · simp only [if_pos h6]
            cases hr : skipWhiteSpace rest with
            | nil => rfl
            | cons d r =>
              simp only []
              rw [ihm rest [] (by omega) (by omega)]
          simp only [if_neg h6]
      · intro cs acc hf hg
        rw [parseElements, parseElements]
        rw [ihv cs (by omega) (by omega)]
        cases hpv : parseValue g cs with
        | none => rfl
        | some p =>
          obtain ⟨v, rest⟩ := p
          simp only []
          have hlt := (parse_length_lt g).1 _ _ _ hpv
          have hsk := skipWhiteSpace_length_le rest
          cases hr : skipWhiteSpace rest with
          | nil => rfl
          | cons d r =>
            rw [hr] at hsk
            simp only [List.length_cons] at hsk
            simp only []
            rw [ihe r (v :: acc) (by omega) (by omega)]
      · intro cs acc hf hg
        have hsk0 := skipWhiteSpace_length_le cs
        rw [parseMembers, parseMembers]
        cases hcs : skipWhiteSpace cs with
        | nil => rfl
        | cons q rest =>
          rw [hcs] at hsk0
          simp only [List.length_cons] at hsk0
          simp only []
          by_cases hq : (q != '"') = true
          · simp only [if_pos hq]
          simp only [if_neg hq]
          cases hkey : parseStringChars rest.length rest [] with
          | none => rfl
          | some p =>
            obtain ⟨key, rest1⟩ := p
            simp only []
            have h1 := parseStringChars_length_lt _ _ _ _ _ hkey
            have hsk1 := skipWhiteSpace_length_le rest1
            cases hr1 : skipWhiteSpace rest1 with
            | nil => rfl
            | cons colon rest2 =>
              rw [hr1] at hsk1
              simp only [List.length_cons] at hsk1
              simp only []
              by_cases hc : (colon != ':') = true
              · simp only [if_pos hc]
              simp only [if_neg hc]
              rw [ihv rest2 (by omega) (by omega)]
              cases hpv : parseValue g rest2 with
              | none => rfl
              | some p2 =>
                obtain ⟨v, rest3⟩ := p2
                simp only []
                have hlt := (parse_length_lt g).1 _ _ _ hpv
                have hsk3 := skipWhiteSpace_length_le rest3
                cases hr3 : skipWhiteSpace rest3 with
                | nil => rfl
                | cons d r =>
                  rw [hr3] at hsk3
                  simp only [List.length_cons] at hsk3
                  simp only []
                  rw [ihm r ((key, v) :: acc) (by omega) (by omega)]

/-- With fuel at least the input length, the result of reading a string does
not depend on the fuel. -/
theorem parseStringChars_fuel : ∀ (f g : Nat) (cs acc : List Char),
    cs.length ≤ f → cs.length ≤ g → parseStringChars f cs acc = parseStringChars g cs acc := by
  intro f
  induction f with
  | zero =>
    intro g cs acc hf hg
    have hnil : cs = [] := List.length_eq_zero.mp (by omega)
    subst hnil
    cases g with
    | zero => rfl
    | succ g => simp [parseStringChars]
  | succ f ih =>
    intro g cs acc hf hg
    cases g with
    | zero =>
      have hnil : cs = [] := List.length_eq_zero.mp (by omega)
      subst hnil
      simp [parseStringChars]
    | succ g =>
      cases cs with
      | nil => simp [parseStringChars]
      | cons c rest =>
        simp only [List.length_cons] at hf hg
        simp only [parseStringChars]
        by_cases h1 : (c == '"') = true
        · simp only [if_pos h1]
        simp only [if_neg h1]
        by_cases h2 : (c == '\\') = true
        · simp only [if_pos h2]
          cases rest with
          | nil => rfl
          | cons e rest1 =>
            simp only [List.length_cons] at hf hg
            simp only []
            by_cases h3 : (e == 'u') = true
            · simp only [if_pos h3]
              match rest1 with
              | [] => rfl
              | [_] => rfl
              | [_, _] => rfl
              | [_, _, _] => rfl
              | a :: b :: c2 :: d :: rest2 =>
                simp only [List.length_cons] at hf hg
                simp only []
                cases hh : hex4 a b c2 d with
                | none => rfl
                | some n =>
                  simp only []
                  have := unicodeEscape_length_le n rest2
                  rw [ih g _ _ (by omega) (by omega)]
            simp only [if_neg h3]
            cases he : escapeChar e with
            | none => rfl
            | some x =>
              simp only []
              rw [ih g _ _ (by omega) (by omega)]
        simp only [if_neg h2]
        by_cases h4 : c.toNat < 0x20
        · simp only [if_pos h4]
        simp only [if_neg h4]
        rw [ih g _ _ (by omega) (by omega)]

/-- The fuel that `JSON.parse` supplies is never used up: with any larger
amount the parser returns the same result on the same text. -/
theorem parseValue_fuel_adequate (text : String) (extra : Nat) :
    parseValue (2 * text.length + 2 + extra) text.data =
      parseValue (2 * text.length + 2) text.data := by
  have hlen : text.data.length = text.length := rfl
  exact (parse_fuel_irrelevant _ _).1 text.data (by omega) (by omega)

/-- The parser on the text written by the filter test for its first record. -/
theorem JSON_parse_example :
    JSON.parse "[\x7b\"id\":\"1\",\"title\":\"Dune\",\"author\":\"Frank Herbert\",\"status\":\"milik\"\x7d]"
      = Except.ok (JsValue.array [JsValue.object
          [("id", JsValue.string "1"), ("title", JsValue.string "Dune"),
           ("author", JsValue.string "Frank Herbert"), ("status", JsValue.string "milik")]]) := by
  rfl

/-- C10 as stated fails: the stored text `{}` is valid JSON but not an array of
book records, and `getStoredValue` returns the parsed object, not the default. -/
theorem getStoredValue_counterexample :
    JSON.parse "{}" = Except.ok (JsValue.object []) ∧
    ¬ IsBookArray (JsValue.object []) ∧
    getStoredValue (storageWith "personalBookList" "{}") "personalBookList" (JsValue.array [])
      = Except.ok (JsValue.object []) ∧
    getStoredValue (storageWith "personalBookList" "{}") "personalBookList" (JsValue.array [])
      ≠ Except.ok (JsValue.array []) := by
  refine ⟨rfl, fun h => h, rfl, ?_⟩
  intro h
  have h2 : getStoredValue (storageWith "personalBookList" "{}") "personalBookList"
      (JsValue.array []) = Except.ok (JsValue.object []) := rfl
  rw [h2] at h
  cases h

/-- C10 (amended): `getStoredValue` always returns a value and never throws; it
returns the default when the store has no value for the key, when reading the
store throws, and when the stored text is not valid JSON (`JSON.parse` throws);
a non-empty stored text that is valid JSON is returned as parsed. -/
theorem getStoredValue_fallback (localStorage : Storage) (key : String)
    (initialValue : JsValue) :
    (∃ v, getStoredValue localStorage key initialValue = Except.ok v) ∧
    (localStorage.getItem key = Except.ok none →
      getStoredValue localStorage key initialValue = Except.ok initialValue) ∧
    (∀ e, localStorage.getItem key = Except.error e →
      getStoredValue localStorage key initialValue = Except.ok initialValue) ∧
    (∀ item e, localStorage.getItem key = Except.ok (some item) →
      JSON.parse item = Except.error e →
      getStoredValue localStorage key initialValue = Except.ok initialValue) ∧
    (∀ item v, localStorage.getItem key = Except.ok (some item) → item ≠ "" →
      JSON.parse item = Except.ok v →
      getStoredValue localStorage key initialValue = Except.ok v) := by
  refine ⟨?_, ?_, ?_, ?_, ?_⟩
  · unfold getStoredValue
    cases getStoredValueTry localStorage key initialValue with
    | ok v => exact ⟨v, rfl⟩
    | error e => exact ⟨initialValue, rfl⟩
  · intro h
    simp [getStoredValue, getStoredValueTry, h]
  · intro e h
    simp [getStoredValue, getStoredValueTry, h]
  · intro item e h hp
    by_cases hi : item = ""
    · simp [getStoredValue, getStoredValueTry, h, hi]
    · simp [getStoredValue, getStoredValueTry, h, hi, hp]
  · intro item v h hi hp
    simp [getStoredValue, getStoredValueTry, h, hi, hp]

/-- Witness for C10 (amended): a store without the key, and a store whose text
for the key is cut off in the middle of a record. -/
theorem getStoredValue_fallback_witness :
    getStoredValue (storageWith "other" "[]") "personalBookList" (JsValue.array [])
      = Except.ok (JsValue.array []) ∧
    getStoredValue (storageWith "personalBookList" "[\x7b\"id\":\"1\",") "personalBookList"
      (JsValue.array []) = Except.ok (JsValue.array []) :=
  ⟨(getStoredValue_fallback (storageWith "other" "[]") "personalBookList"
      (JsValue.array [])).2.1 rfl,
    (getStoredValue_fallback (storageWith "personalBookList" "[\x7b\"id\":\"1\",")
      "personalBookList" (JsValue.array [])).2.2.2.1 "[\x7b\"id\":\"1\"," "SyntaxError" rfl rfl⟩

/-! ## Theorems: statistics screen -/

/-- C13: a segment of a status is rendered exactly when `total > 0` and the
count of that status is positive (the three segments are told apart by their
colour), each colour occurs at most once, and every rendered segment divides a
positive count by `stats.total`, which is positive; divisions by `stats.total`
occur in segments only. -/
theorem distribution_segments (stats : BookStats) :
    ((∃ seg ∈ renderedSegments stats, seg.backgroundColor = "#5c5") ↔
      0 < stats.total ∧ 0 < stats.milik) ∧
    ((∃ seg ∈ renderedSegments stats, seg.backgroundColor = "#fa5") ↔
      0 < stats.total ∧ 0 < stats.baca) ∧
    ((∃ seg ∈ renderedSegments stats, seg.backgroundColor = "#69f") ↔
      0 < stats.total ∧ 0 < stats.beli) ∧
    ((renderedSegments stats).map (fun seg => seg.backgroundColor)).Nodup ∧
    (∀ seg ∈ renderedSegments stats,
      seg.divisor = stats.total ∧ 0 < seg.divisor ∧ 0 < seg.dividend) ∧
    (distribution stats = none ↔ stats.total = 0) := by
  unfold renderedSegments distribution
  by_cases ht : 0 < stats.total
  · by_cases hm : 0 < stats.milik <;> by_cases hb : 0 < stats.baca <;>
      by_cases hw : 0 < stats.beli <;>
      simp [ht, hm, hb, hw] <;> omega
  · have ht0 : stats.total = 0 := by omega
    simp [ht0]

/-- The bar for the statistics of the test collection: 2 of 4, 1 of 4, 1 of 4. -/
theorem distribution_statsBooks :
    (renderedSegments (useBookStats statsBooks)).map (fun seg => (seg.dividend, seg.divisor))
      = [(2, 4), (1, 4), (1, 4)] ∧
    renderedSegments { total := 3, milik := 0, baca := 3, beli := 0 } =
      [{ title := "Dibaca: 3", backgroundColor := "#fa5", dividend := 3, divisor := 3 }] ∧
    distribution { total := 0, milik := 0, baca := 0, beli := 0 } = none := by
  decide

/-! ## Theorems: id generation -/

/-- The ids after `addBook` are the old ids followed by the new id. -/
theorem ids_addBook (newId : String) (book : BookData) (prev : List Book) :
    ids (addBook newId book prev) = ids prev ++ [newId] := by
  simp [ids, addBook]

/-- `value36` reads back every digit that `digit36` writes. -/
theorem value36_digit36 : ∀ d : Nat, d < 36 → value36 (digit36 d) = d := by
  decide

/-- The digits are written in front of the accumulator. -/
theorem toBase36Digits_append : ∀ (fuel n : Nat) (acc : List Char),
    toBase36Digits fuel n acc = toBase36Digits fuel n [] ++ acc := by
  intro fuel
  induction fuel with
  | zero => intro n acc; simp [toBase36Digits]
  | succ fuel ih =>
    intro n acc
    simp only [toBase36Digits]
    split
    · simp
    · rw [ih (n / 36) (digit36 (n % 36) :: acc), ih (n / 36) [digit36 (n % 36)]]
      simp

/-- With fuel above `n`, the digits written for `n` denote `n`. -/
theorem fromBase36_toBase36Digits : ∀ (fuel n : Nat), n < fuel →
    fromBase36 (toBase36Digits fuel n []) = n := by
  intro fuel
  induction fuel with
  | zero => intro n h; omega
  | succ fuel ih =>
    intro n h
    simp only [toBase36Digits]
    split
    · rename_i hn
      simp [fromBase36, value36_digit36 n hn]
    · rename_i hn
      rw [toBase36Digits_append]
      have hdiv : n / 36 < fuel := by omega
      have hrec := ih (n / 36) hdiv
      unfold fromBase36 at hrec ⊢
      rw [List.foldl_append, hrec]
      simp only [List.foldl_cons, List.foldl_nil]
      rw [value36_digit36 (n % 36) (Nat.mod_lt _ (by omega))]
      omega

/-- `toString(36)` maps different numbers to different texts. -/
theorem toBase36_injective (a b : Nat) (h : toBase36 a = toBase36 b) : a = b := by
  have hd : toBase36Digits (a + 1) a [] = toBase36Digits (b + 1) b [] :=
    congrArg String.data h
  have ha := fromBase36_toBase36Digits (a + 1) a (by omega)
  have hb := fromBase36_toBase36Digits (b + 1) b (by omega)
  rw [hd] at ha
  omega

/-- A number from `36 ^ k` up to `36 ^ (k + 1) - 1` is written with `k + 1`
digits. -/
theorem toBase36Digits_length : ∀ (k fuel n : Nat), n < fuel → 36 ^ k ≤ n → n < 36 ^ (k + 1) →
    (toBase36Digits fuel n []).length = k + 1 := by
  intro k
  induction k with
  | zero =>
    intro fuel n hf _ hhi
    obtain ⟨fuel, rfl⟩ : ∃ f, fuel = f + 1 := ⟨fuel - 1, by omega⟩
    have hn : n < 36 := by simpa using hhi
    simp [toBase36Digits, hn]
  | succ k ih =>
    intro fuel n hf hlo hhi
    obtain ⟨fuel, rfl⟩ : ∃ f, fuel = f + 1 := ⟨fuel - 1, by omega⟩
    have h36 : 36 ≤ 36 ^ (k + 1) := by
      calc 36 = 36 ^ 1 := by norm_num
        _ ≤ 36 ^ (k + 1) := Nat.pow_le_pow_right (by norm_num) (by omega)
    have hn : ¬ n < 36 := by omega
    simp only [toBase36Digits, if_neg hn]
    rw [toBase36Digits_append]
    have hlo2 : 36 ^ k ≤ n / 36 := by
      rw [Nat.le_div_iff_mul_le (by norm_num)]
      calc 36 ^ k * 36 = 36 ^ (k + 1) := by ring
        _ ≤ n := hlo
    have hhi2 : n / 36 < 36 ^ (k + 1) := by
      rw [Nat.div_lt_iff_lt_mul (by norm_num)]
      calc n < 36 ^ (k + 1 + 1) := hhi
        _ = 36 ^ (k + 1) * 36 := by ring
    rw [List.length_append, ih fuel (n / 36) (by omega) hlo2 hhi2]
    simp

/-- An eight-digit clock value is written with eight digits. -/
theorem toBase36_length_eight (n : Nat) (hlo : 36 ^ 7 ≤ n) (hhi : n < 36 ^ 8) :
    (toBase36 n).data.length = 8 :=
  toBase36Digits_length 7 (n + 1) n (by omega) hlo hhi

/-- The characters of a generated id: the clock digits, then the random text
from its third character on. -/
theorem generateId_data (now : Nat) (randomText : String) :
    (generateId now randomText).data = (toBase36 now).data ++ randomText.data.drop 2 := by
  simp [generateId, String.data_append]

/-- Two generated ids whose clock texts have the same length are equal exactly
when the clock values are equal and the random suffixes are equal. -/
theorem generateId_eq_iff (now now' : Nat) (r r' : String)
    (hlen : (toBase36 now).data.length = (toBase36 now').data.length) :
    generateId now r = generateId now' r' ↔ now = now' ∧ r.data.drop 2 = r'.data.drop 2 := by
  constructor
  · intro h
    have hd := congrArg String.data h
    rw [generateId_data, generateId_data] at hd
    obtain ⟨h1, h2⟩ := List.append_inj hd hlen
    exact ⟨toBase36_injective _ _ (String.ext h1), h2⟩
  · rintro ⟨rfl, h2⟩
    apply String.ext
    rw [generateId_data, generateId_data, h2]

/-- The ids after `addBook` are pairwise distinct exactly when the ids before
were and the new id differs from each of them. -/
theorem addBook_ids_nodup (newId : String) (book : BookData) (prev : List Book) :
    (ids (addBook newId book prev)).Nodup ↔
      (ids prev).Nodup ∧ ∀ b ∈ prev, b.id ≠ newId := by
  rw [ids_addBook, List.nodup_append]
  constructor
  · rintro ⟨hnd, -, hdisj⟩
    refine ⟨hnd, fun b hb hid => ?_⟩
    have hmem : b.id ∈ ids prev := List.mem_map_of_mem _ hb
    exact hdisj hmem (by simp [hid])
  · rintro ⟨hnd, hfresh⟩
    refine ⟨hnd, List.nodup_singleton _, ?_⟩
    intro x hx hx2
    obtain ⟨b, hb, rfl⟩ := List.mem_map.mp hx
    exact hfresh b hb (List.mem_singleton.mp hx2)

/-- C12 as stated fails: after one `addBook` at clock value `1730000000000` with
the random draw `0.5` (printed `0.i`), a second `addBook` within the same
millisecond whose draw is again `0.5` gets the id `m2r1bz7ki` that the first
record already carries; the ids were pairwise distinct before and are not
afterwards. -/
theorem addBook_id_counterexample :
    generateId 1730000000000 "0.i" = "m2r1bz7ki" ∧
    EightDigitClock 1730000000000 ∧
    (ids collidingBooks).Nodup ∧
    (∃ b ∈ collidingBooks, b.id = generateId 1730000000000 "0.i") ∧
    ¬ (ids (addBook (generateId 1730000000000 "0.i")
        { title := "Emma", author := "Jane Austen", status := "beli" }
        collidingBooks)).Nodup := by
  decide

/-- C12 (amended): let every record of the collection carry an id that
`generateId` produced, at the clock value `clock b` with the random text
`draw b`, and let all clock values have eight base-36 digits. Then the id that
`addBook` assigns is `generateId now randomText`; it equals the id of a record
`b` exactly when `b` was generated at the same clock value with the same
random suffix; and the ids after `addBook` are pairwise distinct exactly when
they were before and no record shares both the clock value and the random
suffix of the new id. -/
theorem addBook_generated_id (now : Nat) (randomText : String) (book : BookData)
    (prev : List Book) (clock : Book → Nat) (draw : Book → String)
    (hnow : EightDigitClock now)
    (hgen : ∀ b ∈ prev, b.id = generateId (clock b) (draw b) ∧ EightDigitClock (clock b)) :
    ((addBook (generateId now randomText) book prev).getLast?.map (fun b => b.id)
      = some (generateId now randomText)) ∧
    (∀ b ∈ prev, b.id = generateId now randomText ↔
      clock b = now ∧ (draw b).data.drop 2 = randomText.data.drop 2) ∧
    ((ids (addBook (generateId now randomText) book prev)).Nodup ↔
      (ids prev).Nodup ∧
      ∀ b ∈ prev, clock b ≠ now ∨ (draw b).data.drop 2 ≠ randomText.data.drop 2) := by
  have hiff : ∀ b ∈ prev, b.id = generateId now randomText ↔
      clock b = now ∧ (draw b).data.drop 2 = randomText.data.drop 2 := by
    intro b hb
    obtain ⟨hid, hclock⟩ := hgen b hb
    rw [hid]
    apply generateId_eq_iff
    rw [toBase36_length_eight _ hclock.1 hclock.2, toBase36_length_eight _ hnow.1 hnow.2]
  refine ⟨by simp [addBook], hiff, ?_⟩
  rw [addBook_ids_nodup]
  constructor
  · rintro ⟨hnd, hfresh⟩
    refine ⟨hnd, fun b hb => ?_⟩
    have hne := hfresh b hb
    rw [Ne, hiff b hb, not_and_or] at hne
    exact hne
  · rintro ⟨hnd, hdiff⟩
    refine ⟨hnd, fun b hb => ?_⟩
    rw [Ne, hiff b hb, not_and_or]
    exact hdiff b hb

/-- Witness for C12 (amended): a third `addBook` on `sessionBooks`, in the
millisecond of the second one but with the draw `0.75` (printed `0.r`), keeps
the ids pairwise distinct. -/
theorem addBook_generated_id_witness :
    (ids (addBook (generateId 1730000000005 "0.r")
        { title := "Walden", author := "Henry David Thoreau", status := "baca" }
        sessionBooks)).Nodup :=
  (addBook_generated_id 1730000000005 "0.r"
      { title := "Walden", author := "Henry David Thoreau", status := "baca" }
      sessionBooks sessionClock sessionDraw (by decide) (by decide)).2.2.mpr
    ⟨by decide, by decide⟩

/-! ## Theorems: saving and loading -/

/-- The parser reads back every hexadecimal digit that the serializer writes. -/
theorem hexDigit_hexChar : ∀ d : Nat, d < 16 → hexDigit (hexChar d) = some d := by
  decide

/-- The four digits written for a control character denote its code. -/
theorem hex4_control (n : Nat) (hn : n < 0x20) :
    hex4 '0' '0' (hexChar (n / 16)) (hexChar (n % 16)) = some n := by
  have h0 : hexDigit '0' = some 0 := by decide
  have h1 := hexDigit_hexChar (n / 16) (by omega)
  have h2 := hexDigit_hexChar (n % 16) (by omega)
  simp only [hex4, h0, h1, h2]
  congr 1
  omega

/-- A code below U+0020 is no surrogate: the escape denotes that character. -/
theorem unicodeEscape_control (n : Nat) (hn : n < 0x20) (rest : List Char) :
    unicodeEscape n rest = (Char.ofNat n, rest) := by
  unfold unicodeEscape
  rw [if_neg (by omega), if_neg (by omega)]

/-- A character is determined by its code. -/
theorem char_of_toNat (c : Char) (n : Nat) (h : c.toNat = n) : c = Char.ofNat n := by
  rw [← h, Char.ofNat_toNat]

/-- Reading the text written for one character yields that character and uses
one unit of fuel. -/
theorem parseStringChars_quoteChar (f : Nat) (c : Char) (rest acc : List Char) :
    parseStringChars (f + 1) (quoteChar c ++ rest) acc = parseStringChars f rest (c :: acc) := by
  unfold quoteChar
  by_cases h1 : (c == '"') = true
  · have hc : c = '"' := by simpa using h1
    subst hc
    simp [parseStringChars, escapeChar]
  rw [if_neg h1]
  by_cases h2 : (c == '\\') = true
  · have hc : c = '\\' := by simpa using h2
    subst hc
    simp [parseStringChars, escapeChar]
  rw [if_neg h2]
  by_cases h3 : (c.toNat == 8) = true
  · have hc : c = Char.ofNat 8 := char_of_toNat c 8 (by simpa using h3)
    subst hc
    simp [parseStringChars, escapeChar]
  rw [if_neg h3]
  by_cases h4 : (c.toNat == 12) = true
  · have hc : c = Char.ofNat 12 := char_of_toNat c 12 (by simpa using h4)
    subst hc
    simp [parseStringChars, escapeChar]
  rw [if_neg h4]
  by_cases h5 : (c == '\n') = true
  · have hc : c = '\n' := by simpa using h5
    subst hc
    simp [parseStringChars, escapeChar]
  rw [if_neg h5]
  by_cases h6 : (c == '\r') = true
  · have hc : c = '\r' := by simpa using h6
    subst hc
    simp [parseStringChars, escapeChar]
  rw [if_neg h6]
  by_cases h7 : (c == '\t') = true
  · have hc : c = '\t' := by simpa using h7
    subst hc
    simp [parseStringChars, escapeChar]
  rw [if_neg h7]
  by_cases h8 : c.toNat < 0x20
  · rw [if_pos h8]
    have hx := hex4_control c.toNat h8
    have hu := unicodeEscape_control c.toNat h8 rest
    simp only [List.cons_append, List.nil_append, parseStringChars]
    simp [hx, hu, Char.ofNat_toNat]
  · rw [if_neg h8]
    simp only [List.cons_append, List.nil_append, parseStringChars]
    rw [if_neg h1, if_neg h2, if_neg h8]
    rfl

/-- Reading the text written for a list of characters, up to the closing quote,
yields these characters. -/
theorem parseStringChars_quoteChars (s : List Char) :
    ∀ (f : Nat) (rest acc : List Char),
      parseStringChars (f + s.length + 1) (quoteChars s ++ '"' :: rest) acc =
        some (⟨acc.reverse ++ s⟩, rest) := by
  induction s with
  | nil =>
    intro f rest acc
    simp [quoteChars, parseStringChars]
  | cons c s ih =>
    intro f rest acc
    have hq : quoteChars (c :: s) = quoteChar c ++ quoteChars s := by
      simp [quoteChars]
    rw [hq, List.append_assoc]
    have hf : f + (c :: s).length + 1 = (f + s.length + 1) + 1 := by
      simp only [List.length_cons]; omega
    rw [hf, parseStringChars_quoteChar, ih]
    simp

/-- Every character is written with at least one character. -/
theorem quoteChar_length_pos (c : Char) : 1 ≤ (quoteChar c).length := by
  unfold quoteChar
  repeat' split
  all_goals simp

/-- Reading the serialized body of a string with enough fuel yields the string. -/
theorem parseStringChars_quote (s : String) (rest : List Char) (f : Nat)
    (hf : (quoteChars s.data ++ '"' :: rest).length ≤ f) :
    parseStringChars f (quoteChars s.data ++ '"' :: rest) [] = some (s, rest) := by
  have h := parseStringChars_quoteChars s.data f rest []
  rw [parseStringChars_fuel _ f _ _ (by omega) hf] at h
  rw [h]
  simp

/-- Nothing is skipped in front of a character that is no white space. -/
theorem skipWhiteSpace_cons (c : Char) (cs : List Char) (h : isJsonWhiteSpace c = false) :
    skipWhiteSpace (c :: cs) = c :: cs := by
  simp [skipWhiteSpace, List.dropWhile_cons, h]

/-- A serialized string followed by more input, as one list. -/
theorem quote_append (s : String) (rest : List Char) :
    quote s ++ rest = '"' :: (quoteChars s.data ++ '"' :: rest) := by
  simp [quote]

/-- The parser reads a serialized string back and leaves the rest of the input. -/
theorem parseValue_string (f : Nat) (s : String) (rest : List Char) :
    parseValue (f + 1) (quote s ++ rest) = some (JsValue.string s, rest) := by
  rw [quote_append, parseValue]
  have hskip := skipWhiteSpace_cons '"' (quoteChars s.data ++ '"' :: rest) (by decide)
  simp only [hskip]
  have hn : "null".data.isPrefixOf ('"' :: (quoteChars s.data ++ '"' :: rest)) = false := by
    simp [List.isPrefixOf]
  have ht : "true".data.isPrefixOf ('"' :: (quoteChars s.data ++ '"' :: rest)) = false := by
    simp [List.isPrefixOf]
  have hfa : "false".data.isPrefixOf ('"' :: (quoteChars s.data ++ '"' :: rest)) = false := by
    simp [List.isPrefixOf]
  simp only [hn, ht, hfa, Bool.false_eq_true, ↓reduceIte, beq_self_eq_true]
  rw [parseStringChars_quote s rest _ (le_refl _)]

/-- The text of a single member. -/
theorem stringifyMembers_single (k : String) (v : JsValue) :
    stringifyMembers [(k, v)] = quote k ++ ':' :: stringifyValue v := by
  simp [stringifyMembers]

/-- The text of a member followed by further members. -/
theorem stringifyMembers_cons_cons (k : String) (v : JsValue) (m : String × JsValue)
    (ms : List (String × JsValue)) :
    stringifyMembers ((k, v) :: m :: ms) =
      quote k ++ ':' :: stringifyValue v ++ ',' :: stringifyMembers (m :: ms) := by
  rw [stringifyMembers]

/-- The text of a non-empty member list starts with a quote. -/
theorem stringifyMembers_quote (m : String × JsValue) (ms : List (String × JsValue)) :
    ∃ tail, stringifyMembers (m :: ms) = '"' :: tail := by
  obtain ⟨k, v⟩ := m
  cases ms with
  | nil => exact ⟨_, by rw [stringifyMembers_single, quote_append]⟩
  | cons m2 ms => exact ⟨_, by rw [stringifyMembers_cons_cons, List.append_assoc, quote_append]⟩

/-- Reading one serialized string-valued member, followed by the character `d`. -/
theorem parseMembers_step (f : Nat) (k v : String) (tail : List Char)
    (acc : List (String × JsValue)) (d : Char) (r : List Char)
    (htail : tail = d :: r) (hd : isJsonWhiteSpace d = false) :
    parseMembers (f + 2) (quote k ++ ':' :: (quote v ++ tail)) acc =
      if d == ',' then parseMembers (f + 1) r ((k, JsValue.string v) :: acc)
      else if d == '}' then some (JsValue.object ((k, JsValue.string v) :: acc).reverse, r)
      else none := by
  subst htail
  rw [quote_append, parseMembers]
  rw [skipWhiteSpace_cons '"' _ (by decide)]
  simp only [bne_self_eq_false, Bool.false_eq_true, ↓reduceIte]
  rw [parseStringChars_quote k _ _ (le_refl _)]
  simp only []
  rw [skipWhiteSpace_cons ':' _ (by decide)]
  simp only [bne_self_eq_false, Bool.false_eq_true, ↓reduceIte]
  rw [parseValue_string]
  simp only []
  rw [skipWhiteSpace_cons d _ hd]

/-- The parser reads the serialized string-valued members of an object back. -/
theorem parseMembers_record (ms : List (String × String)) :
    ∀ (k v : String) (acc : List (String × JsValue)) (rest : List Char) (f : Nat),
      parseMembers (f + ms.length + 2)
        (stringifyMembers ((k, JsValue.string v) ::
          ms.map (fun m => (m.1, JsValue.string m.2))) ++ '}' :: rest) acc =
      some (JsValue.object (acc.reverse ++ (k, JsValue.string v) ::
          ms.map (fun m => (m.1, JsValue.string m.2))), rest) := by
  induction ms with
  | nil =>
    intro k v acc rest f
    have htext : stringifyMembers [(k, JsValue.string v)] ++ '}' :: rest =
        quote k ++ ':' :: (quote v ++ '}' :: rest) := by
      rw [stringifyMembers_single]
      simp [stringifyValue]
    simp only [List.map_nil, List.length_nil, Nat.add_zero]
    rw [htext, parseMembers_step f k v _ acc '}' rest rfl (by decide)]
    simp
  | cons m ms ih =>
    intro k v acc rest f
    obtain ⟨k2, v2⟩ := m
    have htext : stringifyMembers ((k, JsValue.string v) :: (k2, JsValue.string v2) ::
          ms.map (fun m => (m.1, JsValue.string m.2))) ++ '}' :: rest =
        quote k ++ ':' :: (quote v ++ ',' ::
          (stringifyMembers ((k2, JsValue.string v2) ::
            ms.map (fun m => (m.1, JsValue.string m.2))) ++ '}' :: rest)) := by
      rw [stringifyMembers_cons_cons]
      simp [stringifyValue]
    have hfuel : f + ((k2, v2) :: ms).length + 2 = (f + ms.length + 1) + 2 := by
      simp only [List.length_cons]
      omega
    simp only [List.map_cons]
    rw [htext, hfuel, parseMembers_step (f + ms.length + 1) k v _ acc ',' _ rfl (by decide)]
    simp only [beq_self_eq_true, ↓reduceIte]
    rw [ih k2 v2 ((k, JsValue.string v) :: acc) rest f]
    simp

/-- The parser reads a serialized record back, for fuel counted in members. -/
theorem parseValue_record_count (ms : List (String × String)) (rest : List Char) (f : Nat) :
    parseValue (f + ms.length + 2) (stringifyValue (recordToJs ms) ++ rest) =
      some (recordToJs ms, rest) := by
  have hn : ∀ cs, "null".data.isPrefixOf ('{' :: cs) = false := by
    intro cs; simp [List.isPrefixOf]
  have ht : ∀ cs, "true".data.isPrefixOf ('{' :: cs) = false := by
    intro cs; simp [List.isPrefixOf]
  have hfa : ∀ cs, "false".data.isPrefixOf ('{' :: cs) = false := by
    intro cs; simp [List.isPrefixOf]
  have hq : ('{' == '"') = false := by decide
  have hb : ('{' == '[') = false := by decide
  cases ms with
  | nil =>
    have htext : stringifyValue (recordToJs []) ++ rest = '{' :: '}' :: rest := by
      simp [recordToJs, stringifyValue, stringifyMembers]
    rw [htext, parseValue]
    rw [skipWhiteSpace_cons '{' _ (by decide)]
    simp only [hn, ht, hfa, hq, hb, Bool.false_eq_true, ↓reduceIte, beq_self_eq_true]
    rw [skipWhiteSpace_cons '}' _ (by decide)]
    simp [recordToJs]
  | cons m ms =>
    obtain ⟨k, v⟩ := m
    obtain ⟨tail, htail⟩ := stringifyMembers_quote (k, JsValue.string v)
      (ms.map (fun m => (m.1, JsValue.string m.2)))
    have htext : stringifyValue (recordToJs ((k, v) :: ms)) ++ rest =
        '{' :: (stringifyMembers ((k, JsValue.string v) ::
          ms.map (fun m => (m.1, JsValue.string m.2))) ++ '}' :: rest) := by
      simp [recordToJs, stringifyValue]
    have hfuel : f + ((k, v) :: ms).length + 2 = (f + ms.length + 2) + 1 := by
      simp only [List.length_cons]
      omega
    rw [htext, hfuel, parseValue]
    rw [skipWhiteSpace_cons '{' _ (by decide)]
    simp only [hn, ht, hfa, hq, hb, Bool.false_eq_true, ↓reduceIte, beq_self_eq_true]
    have hsk : skipWhiteSpace (stringifyMembers ((k, JsValue.string v) ::
          ms.map (fun m => (m.1, JsValue.string m.2))) ++ '}' :: rest) =
        '"' :: (tail ++ '}' :: rest) := by
      rw [htail]
      exact skipWhiteSpace_cons '"' _ (by decide)
    rw [hsk]
    have hd : ('"' == '}') = false := by decide
    simp only [hd, Bool.false_eq_true, ↓reduceIte]
    rw [parseMembers_record ms k v [] rest f]
    simp [recordToJs]

/-- The parser reads a serialized record back, for fuel above twice the input
length. -/
theorem parseValue_record (ms : List (String × String)) (rest : List Char) (g : Nat)
    (hg : 2 * (stringifyValue (recordToJs ms) ++ rest).length + 1 ≤ g) :
    parseValue g (stringifyValue (recordToJs ms) ++ rest) = some (recordToJs ms, rest) := by
  rw [← parseValue_record_count ms rest g]
  exact (parse_fuel_irrelevant _ _).1 _ hg (by omega)

/-- The text of a record starts with an opening brace. -/
theorem stringifyValue_record_brace (ms : List (String × String)) :
    ∃ tail, stringifyValue (recordToJs ms) = '{' :: tail := by
  exact ⟨stringifyMembers (ms.map (fun m => (m.1, JsValue.string m.2))) ++ ['}'],
    by simp [recordToJs, stringifyValue]⟩

/-- The text of a single element. -/
theorem stringifyElements_single (v : JsValue) : stringifyElements [v] = stringifyValue v := by
  simp [stringifyElements]

/-- The text of an element followed by further elements. -/
theorem stringifyElements_cons_cons (v w : JsValue) (vs : List JsValue) :
    stringifyElements (v :: w :: vs) = stringifyValue v ++ ',' :: stringifyElements (w :: vs) := by
  rw [stringifyElements]

/-- Reading one serialized record as an array element, followed by the character
`d`. -/
theorem parseElements_step (g : Nat) (ms : List (String × String)) (d : Char) (r : List Char)
    (acc : List JsValue) (hd : isJsonWhiteSpace d = false)
    (hg : 2 * (stringifyValue (recordToJs ms) ++ d :: r).length + 1 ≤ g) :
    parseElements (g + 1) (stringifyValue (recordToJs ms) ++ d :: r) acc =
      if d == ',' then parseElements g r (recordToJs ms :: acc)
      else if d == ']' then some (JsValue.array (recordToJs ms :: acc).reverse, r)
      else none := by
  rw [parseElements, parseValue_record ms (d :: r) g hg]
  simp only []
  rw [skipWhiteSpace_cons d _ hd]

/-- The parser reads the serialized elements of an array of records back. -/
theorem parseElements_records (rs : List (List (String × String))) :
    ∀ (r0 : List (String × String)) (acc : List JsValue) (rest : List Char) (g : Nat),
      2 * (stringifyElements ((r0 :: rs).map recordToJs) ++ ']' :: rest).length + 2 ≤ g →
      parseElements g (stringifyElements ((r0 :: rs).map recordToJs) ++ ']' :: rest) acc =
        some (JsValue.array (acc.reverse ++ (r0 :: rs).map recordToJs), rest) := by
  induction rs with
  | nil =>
    intro r0 acc rest g hg
    simp only [List.map_cons, List.map_nil, stringifyElements_single] at hg ⊢
    obtain ⟨g, rfl⟩ : ∃ g', g = g' + 1 := ⟨g - 1, by omega⟩
    rw [parseElements_step g r0 ']' rest acc (by decide) (by omega)]
    simp
  | cons r1 rs ih =>
    intro r0 acc rest g hg
    have htext : stringifyElements ((r0 :: r1 :: rs).map recordToJs) ++ ']' :: rest =
        stringifyValue (recordToJs r0) ++ ',' ::
          (stringifyElements ((r1 :: rs).map recordToJs) ++ ']' :: rest) := by
      simp only [List.map_cons, stringifyElements_cons_cons]
      simp
    rw [htext] at hg ⊢
    obtain ⟨g, rfl⟩ : ∃ g', g = g' + 1 := ⟨g - 1, by omega⟩
    rw [parseElements_step g r0 ',' _ acc (by decide) (by omega)]
    simp only [beq_self_eq_true, ↓reduceIte]
    rw [ih r1 (recordToJs r0 :: acc) rest g (by
      simp only [List.length_append, List.length_cons] at hg ⊢
      omega)]
    simp

/-- The parser reads a serialized array of records back and consumes all input. -/
theorem parseValue_records (rs : List (List (String × String))) (g : Nat)
    (hg : 2 * (stringifyValue (JsValue.array (rs.map recordToJs))).length + 1 ≤ g) :
    parseValue g (stringifyValue (JsValue.array (rs.map recordToJs))) =
      some (JsValue.array (rs.map recordToJs), []) := by
  have hn : ∀ cs, "null".data.isPrefixOf ('[' :: cs) = false := by
    intro cs; simp [List.isPrefixOf]
  have ht : ∀ cs, "true".data.isPrefixOf ('[' :: cs) = false := by
    intro cs; simp [List.isPrefixOf]
  have hfa : ∀ cs, "false".data.isPrefixOf ('[' :: cs) = false := by
    intro cs; simp [List.isPrefixOf]
  have hq : ('[' == '"') = false := by decide
  obtain ⟨g, rfl⟩ : ∃ g', g = g' + 1 := ⟨g - 1, by omega⟩
  cases rs with
  | nil =>
    have htext : stringifyValue (JsValue.array ([].map recordToJs)) = ['[', ']'] := by
      simp [stringifyValue, stringifyElements]
    rw [htext, parseValue]
    rw [skipWhiteSpace_cons '[' _ (by decide)]
    simp only [hn, ht, hfa, hq, Bool.false_eq_true, ↓reduceIte, beq_self_eq_true]
    rw [skipWhiteSpace_cons ']' _ (by decide)]
    simp
  | cons r0 rs =>
    have htext : stringifyValue (JsValue.array ((r0 :: rs).map recordToJs)) =
        '[' :: (stringifyElements ((r0 :: rs).map recordToJs) ++ ']' :: []) := by
      simp [stringifyValue]
    rw [htext] at hg ⊢
    rw [parseValue]
    rw [skipWhiteSpace_cons '[' _ (by decide)]
    simp only [hn, ht, hfa, hq, Bool.false_eq_true, ↓reduceIte, beq_self_eq_true]
    obtain ⟨tail, htail⟩ : ∃ tail, stringifyElements ((r0 :: rs).map recordToJs) ++ [']'] =
        '{' :: tail := by
      obtain ⟨t, ht⟩ := stringifyValue_record_brace r0
      cases rs with
      | nil => exact ⟨t ++ [']'], by simp [stringifyElements_single, ht]⟩
      | cons r1 rs =>
        exact ⟨t ++ ',' :: (stringifyElements ((r1 :: rs).map recordToJs) ++ [']']),
          by simp [stringifyElements_cons_cons, ht]⟩
    have hsk : skipWhiteSpace (stringifyElements ((r0 :: rs).map recordToJs) ++ [']']) =
        '{' :: tail := by
      rw [htail]
      exact skipWhiteSpace_cons '{' _ (by decide)
    rw [hsk]
    have hd : ('{' == ']') = false := by decide
    simp only [hd, Bool.false_eq_true, ↓reduceIte]
    rw [parseElements_records rs r0 [] [] g (by
      simp only [List.length_cons] at hg
      omega)]
    simp

/-- `JSON.parse` inverts `JSON.stringify` on every array of objects with
string-valued properties, whatever the property names and their order. -/
theorem JSON_parse_stringify_records (rs : List (List (String × String))) :
    JSON.parse (JSON.stringify (JsValue.array (rs.map recordToJs))) =
      Except.ok (JsValue.array (rs.map recordToJs)) := by
  unfold JSON.parse
  have hdata : (JSON.stringify (JsValue.array (rs.map recordToJs))).data =
      stringifyValue (JsValue.array (rs.map recordToJs)) := rfl
  have hlen : (JSON.stringify (JsValue.array (rs.map recordToJs))).length =
      (stringifyValue (JsValue.array (rs.map recordToJs))).length := rfl
  rw [hdata, hlen, parseValue_records rs _ (by omega)]
  simp [skipWhiteSpace]

/-- The object of a book is the record of its four properties. -/
theorem Book_toJs_eq (b : Book) :
    b.toJs = recordToJs
      [("title", b.title), ("author", b.author), ("status", b.status), ("id", b.id)] := rfl

/-- The array of a collection is an array of records. -/
theorem booksToJs_eq (books : List Book) :
    booksToJs books = JsValue.array ((books.map (fun b =>
      [("title", b.title), ("author", b.author), ("status", b.status), ("id", b.id)])).map
        recordToJs) := by
  simp [booksToJs, Book_toJs_eq]

/-- Reading the four properties of the object of a book gives the book back. -/
theorem toBook_toJs (b : Book) : toBook b.toJs = some b := by
  simp [toBook, JsValue.getString, Book.toJs, List.lookup]

/-- Reading the array of a collection gives the collection back, in order. -/
theorem toBooks_booksToJs (books : List Book) : toBooks (booksToJs books) = some books := by
  unfold toBooks booksToJs
  simp only []
  induction books with
  | nil => rfl
  | cons b bs ih =>
    simp only [List.map_cons, List.mapM_cons, toBook_toJs, ih]
    rfl

/-- Loading after saving returns the saved value whenever `JSON.parse` inverts
`JSON.stringify` on it. -/
theorem getStoredValue_saveValue (localStorage : Storage) (key : String)
    (initialValue value : JsValue)
    (hparse : JSON.parse (JSON.stringify value) = Except.ok value)
    (hne : JSON.stringify value ≠ "") :
    getStoredValue (saveValue localStorage key value) key initialValue = Except.ok value := by
  simp [getStoredValue, getStoredValueTry, saveValue, Storage.setItem, hne, hparse]

/-- The text of an array is never the empty string. -/
theorem stringify_array_ne_empty (items : List JsValue) :
    JSON.stringify (JsValue.array items) ≠ "" := by
  intro h
  have hd := congrArg String.data h
  simp [JSON.stringify, stringifyValue] at hd

/-- C11: for every collection, the empty one included, saving its array under
`key` the way `useLocalStorage` does and then loading with `getStoredValue`
returns that array, and the array read as a collection is the original one:
the same records in the same order. -/
theorem save_load_roundtrip (localStorage : Storage) (key : String) (initialValue : JsValue)
    (books : List Book) :
    getStoredValue (saveValue localStorage key (booksToJs books)) key initialValue =
      Except.ok (booksToJs books) ∧
    toBooks (booksToJs books) = some books := by
  refine ⟨?_, toBooks_booksToJs books⟩
  apply getStoredValue_saveValue
  · rw [booksToJs_eq]
    exact JSON_parse_stringify_records _
  · exact stringify_array_ne_empty _

set_option maxRecDepth 100000 in
/-- The load of the filter test: the stored text lists the properties of each
record with `id` first, and the loaded array read as a collection is the
collection of the test. -/
theorem load_testStoredText :
    (match getStoredValue (storageWith "personalBookList" testStoredText) "personalBookList"
        (JsValue.array []) with
      | Except.ok value => toBooks value
      | Except.error _ => none) = some initialBooks := by
  decide

end BookManager
